import Mathlib

/-!
Verification of the app-router-sdk generation pipeline.

This file shallowly embeds the analysis-and-generation pipeline of the
app-router-sdk repository: the text-rewriting pass of the handler analyzer
(`removeWrapper`, `removeNewWrapper`, `stripReturnComma` from
`route-parser`), the input-type refinement (`determineInputType`,
`refineMethodTypes` from `type-utils.ts`), the route-tree builder
(`parseRoutes`), the import aggregator (`collectRouteImports`,
`combineImports`, `countImportIdentifiers`, `applyImportAliases`,
`filterUnusedImports`), the two code emitters (`buildObjectCode`,
`buildServerObjectCode`), the SDK writer (`writeSdks`) and the incremental
coordinator's file-event handler (`handleFileEvent`).

Strings are modelled as `List Char`; JavaScript string methods
(`includes`, `split`, `slice`, `startsWith`, `trim`, `replace` with a
global literal-shaped regex) are embedded with their JavaScript semantics.
The character scanners of the rewriting pass walk the text with an
absolute position counter exactly as the source does; they consume the
remaining suffix as a list while keeping the source's index arithmetic
for comma positions and slice bounds.  JavaScript `Map` objects are
embedded as association lists with first-match lookup and in-place
overwrite on `set`.
-/

namespace AppRouterSdk

/-- Apostrophe character (U+0027). -/
def chQuote : Char := Char.ofNat 39

/-- Backtick character (U+0060). -/
def chTick : Char := Char.ofNat 96

/-- Left curly brace character. -/
def chLB : Char := Char.ofNat 123

/-- Right curly brace character. -/
def chRB : Char := Char.ofNat 125

/-- Whitespace characters matched by the JavaScript regex class
backslash-s (restricted to the ASCII range used by the repository's
sources). -/
def isJsSpace (c : Char) : Bool :=
  c = ' ' ∨ c = '\t' ∨ c = '\n' ∨ c = '\r' ∨ c = Char.ofNat 11 ∨ c = Char.ofNat 12

/-- JavaScript `String.prototype.includes(sub)` (substring occurrence;
the empty string occurs in every string). -/
def jsIncludes : List Char → List Char → Bool
  | _, [] => true
  | [], _ :: _ => false
  | c :: rest, sub => sub.isPrefixOf (c :: rest) || jsIncludes rest sub

/-- JavaScript `String.prototype.trim` (with the ASCII whitespace of
`isJsSpace`). -/
def jsTrim (text : List Char) : List Char :=
  ((text.dropWhile isJsSpace).reverse.dropWhile isJsSpace).reverse

/-- JavaScript `String.prototype.split('\n')`. -/
def jsLines (text : List Char) : List (List Char) :=
  text.splitOn '\n'

/-- JavaScript `Array.prototype.join('\n')` for line lists. -/
def jsUnlines (ls : List (List Char)) : List Char :=
  (ls.intersperse ['\n']).flatten

/-- The bracket-matching scanner of `removeWrapper` (route-parser
lines 63-82): the number of characters consumed before the parenthesis
depth first returns to zero (or the text ends). -/
def scanWrapArgs (args : List Char) (depth : Int) : Nat :=
  match args with
  | [] => 0
  | c :: rest =>
    if depth > 0 then
      let d2 := if c = '(' then depth + 1 else if c = ')' then depth - 1 else depth
      1 + scanWrapArgs rest d2
    else 0

/-- The loop of `removeWrapper` (route-parser lines 63-82): wherever the
given call prefix occurs, drop the prefix and its matching closing
parenthesis, keeping the argument text.  `fuel` bounds the number of loop
iterations; every iteration consumes at least one character, so the
wrapper's `length + 1` budget is never exhausted. -/
def removeWrapperL (pfx : List Char) : Nat → List Char → List Char
  | 0, _ => []
  | _, [] => []
  | fuel + 1, c :: rest =>
    if pfx.isPrefixOf (c :: rest) then
      let args := (c :: rest).drop pfx.length
      let n := scanWrapArgs args 1
      args.take (n - 1) ++ removeWrapperL pfx fuel (args.drop n)
    else c :: removeWrapperL pfx fuel rest

/-- `removeWrapper(text, prefix)` from route-parser lines 63-82. -/
def removeWrapper (text pfx : List Char) : List Char :=
  removeWrapperL pfx (text.length + 1) text

/-- The inner scanner of `removeNewWrapper` (route-parser lines 90-158):
consume the argument region of a response-construction call, tracking
parenthesis, bracket and curly depth, string literals with escapes, and
the absolute position of the first top-level comma.  `pos` is the
absolute index of the head of `args` in the full text; the result is the
source's final index together with the recorded comma position.  `fuel`
bounds the number of loop iterations; every iteration consumes at least
one character, so the caller's `length + 1` budget is never exhausted. -/
def scanNewArgs : Nat → List Char → Nat → Int → Int → Int → Bool → Char → Option Nat → Nat × Option Nat
  | 0, _, pos, _, _, _, _, _, cp => (pos, cp)
  | _ + 1, [], pos, _, _, _, _, _, cp => (pos, cp)
  | fuel + 1, c :: rest, pos, pd, bd, cd, inStr, sc, cp =>
    if pd > 0 then
      if inStr then
        if c = '\\' then scanNewArgs fuel (rest.drop 1) (pos + 2) pd bd cd true sc cp
        else if c = sc then scanNewArgs fuel rest (pos + 1) pd bd cd false sc cp
        else scanNewArgs fuel rest (pos + 1) pd bd cd true sc cp
      else
        if c = '"' ∨ c = chQuote ∨ c = chTick then
          scanNewArgs fuel rest (pos + 1) pd bd cd true c cp
        else if c = '(' then scanNewArgs fuel rest (pos + 1) (pd + 1) bd cd false sc cp
        else if c = ')' then scanNewArgs fuel rest (pos + 1) (pd - 1) bd cd false sc cp
        else if c = '[' then scanNewArgs fuel rest (pos + 1) pd (bd + 1) cd false sc cp
        else if c = ']' then scanNewArgs fuel rest (pos + 1) pd (bd - 1) cd false sc cp
        else if c = chLB then scanNewArgs fuel rest (pos + 1) pd bd (cd + 1) false sc cp
        else if c = chRB then scanNewArgs fuel rest (pos + 1) pd bd (cd - 1) false sc cp
        else if c = ',' ∧ pd = 1 ∧ bd = 0 ∧ cd = 0 ∧ cp = none then
          scanNewArgs fuel rest (pos + 1) pd bd cd false sc (some pos)
        else scanNewArgs fuel rest (pos + 1) pd bd cd false sc cp
    else (pos, cp)

/-- The scanner stops on an exhausted suffix, with any fuel. -/
theorem scanNewArgs_nilArgs (fuel pos : Nat) (pd bd cd : Int) (inStr : Bool)
    (sc : Char) (cp : Option Nat) :
    scanNewArgs fuel [] pos pd bd cd inStr sc cp = (pos, cp) := by
  cases fuel <;> rfl

/-- Matcher for the regex `status\s*:\s*([0-9]+)` anchored at the head of
the list: the literal `status`, optional whitespace, a colon, optional
whitespace, then one or more digits (captured). -/
def matchStatusAt (cs : List Char) : Option (List Char) :=
  if ("status".toList).isPrefixOf cs then
    let rest := (cs.drop 6).dropWhile isJsSpace
    match rest with
    | ':' :: rest2 =>
      let ds := (rest2.dropWhile isJsSpace).takeWhile Char.isDigit
      if ds = [] then none else some ds
    | _ => none
  else none

/-- `exec` of the regex `status\s*:\s*([0-9]+)`: the captured digits of
the leftmost match, if any. -/
def findStatusCode : List Char → Option (List Char)
  | [] => none
  | c :: rest =>
    match matchStatusAt (c :: rest) with
    | some ds => some ds
    | none => findStatusCode rest

/-- The thrown-error template of `removeNewWrapper` (route-parser
line 148). -/
def throwTemplate (bodyArg : List Char) : List Char :=
  "( () => \x7b const __body = ".toList ++ bodyArg ++
    "; throw new Error(JSON.stringify(__body)); \x7d )()".toList

/-- The loop of `removeNewWrapper` (route-parser lines 90-158): unwrap
each occurrence of the given response-construction prefix; when the call
carries a second argument whose first `status: <digits>` field is not the
literal `200`, replace the unwrapped expression by the thrown-error
template applied to the first argument.  `pos` is the absolute index of
the head of the current suffix.  `fuel` bounds the number of loop
iterations; every iteration consumes at least one character, so the
wrapper's `length + 1` budget is never exhausted. -/
def removeNewWrapperL (pfx : List Char) : Nat → List Char → Nat → List Char
  | 0, _, _ => []
  | _, [], _ => []
  | fuel + 1, c :: rest, pos =>
    if pfx.isPrefixOf (c :: rest) then
      let args := (c :: rest).drop pfx.length
      let argStart := pos + pfx.length
      let res := scanNewArgs (args.length + 1) args argStart 1 0 0 false ' ' none
      let endIdx := res.1
      let endArgIdx := endIdx - 1
      let next := removeNewWrapperL pfx fuel (args.drop (endIdx - argStart)) endIdx
      match res.2 with
      | some cp =>
        if 0 < cp then
          let bodyArg := args.take (cp - argStart)
          let initArg := (args.drop (cp + 1 - argStart)).take (endArgIdx - (cp + 1))
          match findStatusCode initArg with
          | some code =>
            if code ≠ "200".toList then throwTemplate bodyArg ++ next
            else bodyArg ++ next
          | none => bodyArg ++ next
        else args.take (endArgIdx - argStart) ++ next
      | none => args.take (endArgIdx - argStart) ++ next
    else c :: removeNewWrapperL pfx fuel rest (pos + 1)

/-- `removeNewWrapper(text, prefix)` from route-parser lines 90-158. -/
def removeNewWrapper (text pfx : List Char) : List Char :=
  removeNewWrapperL pfx (text.length + 1) text 0

/-- A character that the scanner of `removeNewWrapper` treats as inert:
not a bracket, quote, comma or escape. -/
def plainChar (c : Char) : Bool :=
  decide (c ≠ '(' ∧ c ≠ ')' ∧ c ≠ '[' ∧ c ≠ ']' ∧ c ≠ chLB ∧ c ≠ chRB ∧
    c ≠ '"' ∧ c ≠ chQuote ∧ c ≠ chTick ∧ c ≠ ',' ∧ c ≠ '\\')

/-- Digits are inert for the scanner of `removeNewWrapper`. -/
theorem plainChar_of_digit (c : Char) (h : c.isDigit = true) : plainChar c = true := by
  apply decide_eq_true
  refine ⟨?_, ?_, ?_, ?_, ?_, ?_, ?_, ?_, ?_, ?_, ?_⟩ <;>
    (intro hEq; subst hEq; exact absurd h (by decide))

/-- The scanner of `removeNewWrapper` walks over a run of inert
characters outside a string literal without changing its state. -/
theorem scanNewArgs_plain_append (run rest : List Char)
    (h : ∀ c ∈ run, plainChar c = true) :
    ∀ (fuel pos : Nat), (run ++ rest).length < fuel →
      ∀ (pd bd cd : Int), pd > 0 → ∀ (sc : Char) (cp : Option Nat),
      scanNewArgs fuel (run ++ rest) pos pd bd cd false sc cp
        = scanNewArgs (fuel - run.length) rest (pos + run.length) pd bd cd false sc cp := by
  induction run with
  | nil => intro fuel pos hf pd bd cd hpd sc cp; rfl
  | cons c cs ih =>
    intro fuel pos hf pd bd cd hpd sc cp
    obtain ⟨h1, h2, h3, h4, h5, h6, h7, h8, h9, h10, h11⟩ :=
      of_decide_eq_true (h c (by simp))
    have hcs : ∀ x ∈ cs, plainChar x = true := fun x hx => h x (by simp [hx])
    cases fuel with
    | zero => simp at hf
    | succ g =>
      have hg : (cs ++ rest).length < g := by
        simp only [List.cons_append, List.length_cons, List.length_append] at hf ⊢
        omega
      simp only [List.cons_append, scanNewArgs, List.append_eq]
      rw [if_pos hpd, if_neg (by decide : ¬(false = true)),
        if_neg (fun hor => hor.elim h7 (fun hor2 => hor2.elim h8 h9)),
        if_neg h1, if_neg h2, if_neg h3, if_neg h4, if_neg h5, if_neg h6,
        if_neg (fun hand => h10 hand.1), ih hcs g (pos + 1) hg pd bd cd hpd sc cp]
      have harith1 : g - cs.length = g + 1 - (c :: cs).length := by
        simp only [List.length_cons]; omega
      have harith2 : pos + 1 + cs.length = pos + (c :: cs).length := by
        simp only [List.length_cons]; omega
      rw [harith1, harith2]

/-- A step of the scanner of `removeNewWrapper` over one inert character. -/
theorem scanNewArgs_plain_cons (c : Char) (rest : List Char)
    (hc : plainChar c = true) (fuel pos : Nat) (hf : 0 < fuel)
    (pd bd cd : Int) (hpd : pd > 0) (sc : Char) (cp : Option Nat) :
    scanNewArgs fuel (c :: rest) pos pd bd cd false sc cp
      = scanNewArgs (fuel - 1) rest (pos + 1) pd bd cd false sc cp := by
  obtain ⟨h1, h2, h3, h4, h5, h6, h7, h8, h9, h10, h11⟩ := of_decide_eq_true hc
  cases fuel with
  | zero => omega
  | succ g =>
    simp only [scanNewArgs]
    rw [if_pos hpd, if_neg (by decide : ¬(false = true)),
      if_neg (fun hor => hor.elim h7 (fun hor2 => hor2.elim h8 h9)),
      if_neg h1, if_neg h2, if_neg h3, if_neg h4, if_neg h5, if_neg h6,
      if_neg (fun hand => h10 hand.1)]
    simp only [Nat.add_sub_cancel]

/-- Scanner step on a top-level comma: the comma position is recorded. -/
theorem scanNewArgs_comma (rest : List Char) (fuel pos : Nat) (hf : 0 < fuel)
    (sc : Char) :
    scanNewArgs fuel (',' :: rest) pos 1 0 0 false sc none
      = scanNewArgs (fuel - 1) rest (pos + 1) 1 0 0 false sc (some pos) := by
  cases fuel with
  | zero => omega
  | succ g =>
    simp only [scanNewArgs]
    rw [if_pos (by norm_num : (1:Int) > 0), if_neg (by decide : ¬(false = true)),
      if_neg (by decide), if_neg (by decide), if_neg (by decide),
      if_neg (by decide), if_neg (by decide), if_neg (by decide),
      if_neg (by decide), if_pos (by simp)]
    simp only [Nat.add_sub_cancel]

/-- Scanner step on an opening curly brace. -/
theorem scanNewArgs_lbrace (rest : List Char) (fuel pos : Nat) (hf : 0 < fuel)
    (pd bd cd : Int) (hpd : pd > 0) (sc : Char) (cp : Option Nat) :
    scanNewArgs fuel (chLB :: rest) pos pd bd cd false sc cp
      = scanNewArgs (fuel - 1) rest (pos + 1) pd bd (cd + 1) false sc cp := by
  cases fuel with
  | zero => omega
  | succ g =>
    simp only [scanNewArgs]
    rw [if_pos hpd, if_neg (by decide : ¬(false = true)),
      if_neg (by decide), if_neg (by decide), if_neg (by decide),
      if_neg (by decide), if_neg (by decide), if_pos (by simp)]
    simp only [Nat.add_sub_cancel]

/-- Scanner step on a closing curly brace. -/
theorem scanNewArgs_rbrace (rest : List Char) (fuel pos : Nat) (hf : 0 < fuel)
    (pd bd cd : Int) (hpd : pd > 0) (sc : Char) (cp : Option Nat) :
    scanNewArgs fuel (chRB :: rest) pos pd bd cd false sc cp
      = scanNewArgs (fuel - 1) rest (pos + 1) pd bd (cd - 1) false sc cp := by
  cases fuel with
  | zero => omega
  | succ g =>
    simp only [scanNewArgs]
    rw [if_pos hpd, if_neg (by decide : ¬(false = true)),
      if_neg (by decide), if_neg (by decide), if_neg (by decide),
      if_neg (by decide), if_neg (by decide), if_neg (by decide), if_pos (by simp)]
    simp only [Nat.add_sub_cancel]

/-- Scanner step on a closing parenthesis. -/
theorem scanNewArgs_rparen (rest : List Char) (fuel pos : Nat) (hf : 0 < fuel)
    (pd bd cd : Int) (hpd : pd > 0) (sc : Char) (cp : Option Nat) :
    scanNewArgs fuel (')' :: rest) pos pd bd cd false sc cp
      = scanNewArgs (fuel - 1) rest (pos + 1) (pd - 1) bd cd false sc cp := by
  cases fuel with
  | zero => omega
  | succ g =>
    simp only [scanNewArgs]
    rw [if_pos hpd, if_neg (by decide : ¬(false = true)),
      if_neg (by decide), if_neg (by decide), if_pos (by simp)]
    simp only [Nat.add_sub_cancel]

/-- A digit is not JavaScript whitespace. -/
theorem isJsSpace_eq_false_of_digit (c : Char) (h : c.isDigit = true) :
    isJsSpace c = false := by
  apply decide_eq_false
  rintro (rfl | rfl | rfl | rfl | rfl | rfl) <;> exact absurd h (by decide)

/-- The second-argument shape ` { status: <digits> }` (followed by the
closing parenthesis already stripped): the status regex captures exactly
the digit run. -/
theorem findStatusCode_init (d : List Char) (hd : ∀ c ∈ d, c.isDigit = true)
    (hd0 : d ≠ []) :
    findStatusCode
      (' ' :: chLB :: ' ' :: 's' :: 't' :: 'a' :: 't' :: 'u' :: 's' :: ':' :: ' ' ::
        (d ++ (' ' :: chRB :: []))) = some d := by
  cases d with
  | nil => exact absurd rfl hd0
  | cons c0 d2 =>
    have hc0 : c0.isDigit = true := hd c0 (by simp)
    have hstep :
        findStatusCode
          (' ' :: chLB :: ' ' :: 's' :: 't' :: 'a' :: 't' :: 'u' :: 's' :: ':' :: ' ' ::
            ((c0 :: d2) ++ (' ' :: chRB :: []))) =
          match matchStatusAt
            ('s' :: 't' :: 'a' :: 't' :: 'u' :: 's' :: ':' :: ' ' ::
              ((c0 :: d2) ++ (' ' :: chRB :: []))) with
          | some ds => some ds
          | none =>
            findStatusCode ('t' :: 'a' :: 't' :: 'u' :: 's' :: ':' :: ' ' ::
              ((c0 :: d2) ++ (' ' :: chRB :: []))) := rfl
    rw [hstep]
    have hmatch :
        matchStatusAt
          ('s' :: 't' :: 'a' :: 't' :: 'u' :: 's' :: ':' :: ' ' ::
            ((c0 :: d2) ++ (' ' :: chRB :: []))) = some (c0 :: d2) := by
      simp only [matchStatusAt]
      rw [if_pos (by rfl)]
      show (match (':' :: ' ' :: ((c0 :: d2) ++ (' ' :: chRB :: []))).dropWhile isJsSpace with
        | ':' :: rest2 =>
          let ds := (rest2.dropWhile isJsSpace).takeWhile Char.isDigit
          if ds = [] then none else some ds
        | _ => none) = some (c0 :: d2)
      have hdrop : (':' :: ' ' :: ((c0 :: d2) ++ (' ' :: chRB :: []))).dropWhile isJsSpace
          = ':' :: ' ' :: ((c0 :: d2) ++ (' ' :: chRB :: [])) := by
        rw [List.dropWhile_cons_of_neg (by decide)]
      rw [hdrop]
      show (let ds := ((' ' :: ((c0 :: d2) ++ (' ' :: chRB :: []))).dropWhile
          isJsSpace).takeWhile Char.isDigit
        if ds = [] then none else some ds) = some (c0 :: d2)
      have hdrop2 : (' ' :: ((c0 :: d2) ++ (' ' :: chRB :: []))).dropWhile isJsSpace
          = (c0 :: d2) ++ (' ' :: chRB :: []) := by
        rw [List.dropWhile_cons_of_pos (by decide)]
        rw [List.cons_append, List.dropWhile_cons_of_neg
          (by rw [isJsSpace_eq_false_of_digit c0 hc0]; decide)]
      rw [hdrop2]
      have htk0 : List.takeWhile Char.isDigit (' ' :: chRB :: []) = [] := by decide
      have htake : ((c0 :: d2) ++ (' ' :: chRB :: [])).takeWhile Char.isDigit
          = c0 :: d2 := by
        rw [List.takeWhile_append_of_pos hd, htk0, List.append_nil]
      simp only [htake]
      rw [if_neg (by simp)]
    rw [hmatch]

/-- The text of a second response-constructor argument `, { status: <d> })`
following the payload argument. -/
def statusTail (d : List Char) : List Char :=
  ',' :: ' ' :: chLB :: ' ' :: 's' :: 't' :: 'a' :: 't' :: 'u' :: 's' :: ':' :: ' ' ::
    (d ++ (' ' :: chRB :: ')' :: []))

/-- `statusTail` without its leading comma. -/
def statusRest (d : List Char) : List Char :=
  ' ' :: chLB :: ' ' :: 's' :: 't' :: 'a' :: 't' :: 'u' :: 's' :: ':' :: ' ' ::
    (d ++ (' ' :: chRB :: ')' :: []))

/-- The second-argument region as seen by the status regex (the closing
parenthesis already stripped by the slice). -/
def statusInit (d : List Char) : List Char :=
  ' ' :: chLB :: ' ' :: 's' :: 't' :: 'a' :: 't' :: 'u' :: 's' :: ':' :: ' ' ::
    (d ++ (' ' :: chRB :: []))

/-- The scanner's trace over `<body>, { status: <d> })`: the whole region
is consumed, the top-level comma sits right after the body. -/
theorem scanNewArgs_trace_status (body d : List Char)
    (hb : ∀ c ∈ body, plainChar c = true)
    (hdp : ∀ c ∈ d, plainChar c = true) (A : Nat) :
    scanNewArgs ((body ++ statusTail d).length + 1) (body ++ statusTail d) A 1 0 0 false ' ' none
      = (A + body.length + d.length + 15, some (A + body.length)) := by
  simp only [statusTail]
  have hL : (body ++ (',' :: ' ' :: chLB :: ' ' :: 's' :: 't' :: 'a' :: 't' :: 'u' ::
      's' :: ':' :: ' ' :: (d ++ (' ' :: chRB :: ')' :: [])))).length
      = body.length + (d.length + 15) := by simp
  have hL2 : (d ++ (' ' :: chRB :: ')' :: [])).length = d.length + 3 := by simp
  rw [scanNewArgs_plain_append body _ hb _ A (by omega) 1 0 0 (by norm_num) ' ' none]
  rw [scanNewArgs_comma _ _ _ (by omega)]
  rw [scanNewArgs_plain_cons ' ' _ (by decide) _ _ (by omega) 1 0 0 (by norm_num)]
  rw [scanNewArgs_lbrace _ _ _ (by omega) 1 0 0 (by norm_num)]
  rw [scanNewArgs_plain_cons ' ' _ (by decide) _ _ (by omega) 1 0 (0+1) (by norm_num)]
  rw [scanNewArgs_plain_cons 's' _ (by decide) _ _ (by omega) 1 0 (0+1) (by norm_num)]
  rw [scanNewArgs_plain_cons 't' _ (by decide) _ _ (by omega) 1 0 (0+1) (by norm_num)]
  rw [scanNewArgs_plain_cons 'a' _ (by decide) _ _ (by omega) 1 0 (0+1) (by norm_num)]
  rw [scanNewArgs_plain_cons 't' _ (by decide) _ _ (by omega) 1 0 (0+1) (by norm_num)]
  rw [scanNewArgs_plain_cons 'u' _ (by decide) _ _ (by omega) 1 0 (0+1) (by norm_num)]
  rw [scanNewArgs_plain_cons 's' _ (by decide) _ _ (by omega) 1 0 (0+1) (by norm_num)]
  rw [scanNewArgs_plain_cons ':' _ (by decide) _ _ (by omega) 1 0 (0+1) (by norm_num)]
  rw [scanNewArgs_plain_cons ' ' _ (by decide) _ _ (by omega) 1 0 (0+1) (by norm_num)]
  rw [scanNewArgs_plain_append d _ hdp _ _ (by omega) 1 0 (0+1) (by norm_num) ' ' _]
  rw [scanNewArgs_plain_cons ' ' _ (by decide) _ _ (by omega) 1 0 (0+1) (by norm_num)]
  rw [scanNewArgs_rbrace _ _ _ (by omega) 1 0 (0+1) (by norm_num)]
  rw [scanNewArgs_rparen _ _ _ (by omega) 1 0 (0+1-1) (by norm_num)]
  rw [scanNewArgs_nilArgs]
  simp only [Prod.mk.injEq]
  exact ⟨by omega, trivial⟩

/-- The scanner's trace over `<body>)` (no second argument): the region is
consumed, no top-level comma is recorded. -/
theorem scanNewArgs_trace_simple (body : List Char)
    (hb : ∀ c ∈ body, plainChar c = true) (A : Nat) :
    scanNewArgs ((body ++ [')']).length + 1) (body ++ [')']) A 1 0 0 false ' ' none
      = (A + body.length + 1, none) := by
  have hL : (body ++ [')']).length = body.length + 1 := by simp
  rw [scanNewArgs_plain_append body _ hb _ A (by omega) 1 0 0 (by norm_num) ' ' none]
  rw [show ([')'] : List Char) = ')' :: [] from rfl]
  rw [scanNewArgs_rparen _ _ _ (by omega) 1 0 0 (by norm_num)]
  rw [scanNewArgs_nilArgs]

/-- The text of a second response-constructor argument `, { hi: 1 })`
carrying no status field. -/
def noStatusTail : List Char :=
  ',' :: ' ' :: chLB :: ' ' :: 'h' :: 'i' :: ':' :: ' ' :: '1' :: ' ' :: chRB :: ')' :: []

/-- The scanner's trace over `<body>, { hi: 1 })`. -/
theorem scanNewArgs_trace_nostatus (body : List Char)
    (hb : ∀ c ∈ body, plainChar c = true) (A : Nat) :
    scanNewArgs ((body ++ noStatusTail).length + 1) (body ++ noStatusTail) A 1 0 0 false ' ' none
      = (A + body.length + 12, some (A + body.length)) := by
  simp only [noStatusTail]
  have hL : (body ++ (',' :: ' ' :: chLB :: ' ' :: 'h' :: 'i' :: ':' :: ' ' :: '1' ::
      ' ' :: chRB :: ')' :: [])).length = body.length + 12 := by simp
  rw [scanNewArgs_plain_append body _ hb _ A (by omega) 1 0 0 (by norm_num) ' ' none]
  rw [scanNewArgs_comma _ _ _ (by omega)]
  rw [scanNewArgs_plain_cons ' ' _ (by decide) _ _ (by omega) 1 0 0 (by norm_num)]
  rw [scanNewArgs_lbrace _ _ _ (by omega) 1 0 0 (by norm_num)]
  rw [scanNewArgs_plain_cons ' ' _ (by decide) _ _ (by omega) 1 0 (0+1) (by norm_num)]
  rw [scanNewArgs_plain_cons 'h' _ (by decide) _ _ (by omega) 1 0 (0+1) (by norm_num)]
  rw [scanNewArgs_plain_cons 'i' _ (by decide) _ _ (by omega) 1 0 (0+1) (by norm_num)]
  rw [scanNewArgs_plain_cons ':' _ (by decide) _ _ (by omega) 1 0 (0+1) (by norm_num)]
  rw [scanNewArgs_plain_cons ' ' _ (by decide) _ _ (by omega) 1 0 (0+1) (by norm_num)]
  rw [scanNewArgs_plain_cons '1' _ (by decide) _ _ (by omega) 1 0 (0+1) (by norm_num)]
  rw [scanNewArgs_plain_cons ' ' _ (by decide) _ _ (by omega) 1 0 (0+1) (by norm_num)]
  rw [scanNewArgs_rbrace _ _ _ (by omega) 1 0 (0+1) (by norm_num)]
  rw [scanNewArgs_rparen _ _ _ (by omega) 1 0 (0+1-1) (by norm_num)]
  rw [scanNewArgs_nilArgs]

/-- Computation rule for `removeNewWrapperL` at a wrapper occurrence whose
scan records a top-level comma. -/
theorem removeNewWrapperL_comma (q : Char) (qs X : List Char)
    (fuel pos endIdx cp : Nat)
    (hscan : scanNewArgs (X.length + 1) X (pos + (qs.length + 1)) 1 0 0 false ' ' none
      = (endIdx, some cp))
    (hcp : 0 < cp) :
    removeNewWrapperL (q :: qs) (fuel + 1) ((q :: qs) ++ X) pos =
      (match findStatusCode ((X.drop (cp + 1 - (pos + (qs.length + 1)))).take
          (endIdx - 1 - (cp + 1))) with
       | some code =>
         if code ≠ "200".toList then
           throwTemplate (X.take (cp - (pos + (qs.length + 1)))) ++
             removeNewWrapperL (q :: qs) fuel (X.drop (endIdx - (pos + (qs.length + 1)))) endIdx
         else X.take (cp - (pos + (qs.length + 1))) ++
           removeNewWrapperL (q :: qs) fuel (X.drop (endIdx - (pos + (qs.length + 1)))) endIdx
       | none => X.take (cp - (pos + (qs.length + 1))) ++
           removeNewWrapperL (q :: qs) fuel (X.drop (endIdx - (pos + (qs.length + 1)))) endIdx) := by
  have hpre : (q :: qs).isPrefixOf (q :: (qs ++ X)) = true := by
    rw [show q :: (qs ++ X) = (q :: qs) ++ X from rfl, List.isPrefixOf_iff_prefix]
    exact List.prefix_append _ _
  rw [List.cons_append]
  simp only [removeNewWrapperL]
  rw [if_pos hpre]
  simp only [List.length_cons, List.drop_succ_cons, List.drop_left, hscan]
  rw [if_pos hcp]

/-- Computation rule for `removeNewWrapperL` at a wrapper occurrence whose
scan records no top-level comma. -/
theorem removeNewWrapperL_nocomma (q : Char) (qs X : List Char)
    (fuel pos endIdx : Nat)
    (hscan : scanNewArgs (X.length + 1) X (pos + (qs.length + 1)) 1 0 0 false ' ' none
      = (endIdx, none)) :
    removeNewWrapperL (q :: qs) (fuel + 1) ((q :: qs) ++ X) pos =
      X.take (endIdx - 1 - (pos + (qs.length + 1))) ++
        removeNewWrapperL (q :: qs) fuel (X.drop (endIdx - (pos + (qs.length + 1)))) endIdx := by
  have hpre : (q :: qs).isPrefixOf (q :: (qs ++ X)) = true := by
    rw [show q :: (qs ++ X) = (q :: qs) ++ X from rfl, List.isPrefixOf_iff_prefix]
    exact List.prefix_append _ _
  rw [List.cons_append]
  simp only [removeNewWrapperL]
  rw [if_pos hpre]
  simp only [List.length_cons, List.drop_succ_cons, List.drop_left, hscan]

/-- `removeNewWrapperL` leaves an exhausted suffix unchanged. -/
theorem removeNewWrapperL_nil (pfx : List Char) (fuel pos : Nat) :
    removeNewWrapperL pfx fuel [] pos = [] := by
  cases fuel <;> rfl

/-- The unwrap result of `removeNewWrapper` on a response-construction
call `<pfx><body>, { status: <d> })` whose payload argument is inert text:
the payload is kept when the status literal is exactly `200`, and the
thrown-error template is produced for any other digit string. -/
theorem removeNewWrapper_status (pfx body d : List Char) (hp : pfx ≠ [])
    (hb : ∀ c ∈ body, plainChar c = true)
    (hd : ∀ c ∈ d, c.isDigit = true) (hd0 : d ≠ []) :
    removeNewWrapper (pfx ++ (body ++ statusTail d)) pfx
      = if d = "200".toList then body else throwTemplate body := by
  cases pfx with
  | nil => exact absurd rfl hp
  | cons q qs =>
    show removeNewWrapperL (q :: qs) (((q :: qs) ++ (body ++ statusTail d)).length + 1)
      ((q :: qs) ++ (body ++ statusTail d)) 0 = _
    have hdp : ∀ c ∈ d, plainChar c = true := fun c hc => plainChar_of_digit c (hd c hc)
    have hscan := scanNewArgs_trace_status body d hb hdp (0 + (qs.length + 1))
    rw [removeNewWrapperL_comma q qs _ _ 0 _ _ hscan (by omega)]
    have e1 : 0 + (qs.length + 1) + body.length + 1 - (0 + (qs.length + 1))
        = body.length + 1 := by omega
    have e2 : 0 + (qs.length + 1) + body.length + d.length + 15 - 1 -
        (0 + (qs.length + 1) + body.length + 1) = d.length + 13 := by omega
    have e3 : 0 + (qs.length + 1) + body.length - (0 + (qs.length + 1))
        = body.length := by omega
    have e4 : 0 + (qs.length + 1) + body.length + d.length + 15 -
        (0 + (qs.length + 1)) = body.length + (d.length + 15) := by omega
    rw [e1, e2, e3, e4]
    have hX : body ++ statusTail d = (body ++ [',']) ++ statusRest d := by
      simp only [statusTail, statusRest, List.cons_append, List.append_assoc,
        List.nil_append]
    have hdrop1 : (body ++ statusTail d).drop (body.length + 1) = statusRest d := by
      rw [hX, show body.length + 1 = (body ++ [',']).length by simp, List.drop_left]
    have hSR : statusRest d = statusInit d ++ [')'] := by
      simp only [statusRest, statusInit, List.cons_append, List.append_assoc,
        List.nil_append]
    have htake1 : (statusRest d).take (d.length + 13) = statusInit d := by
      rw [hSR, show d.length + 13 = (statusInit d).length by
        simp [statusInit], List.take_left]
    have hfs : findStatusCode (statusInit d) = some d := by
      have hsi : statusInit d
          = ' ' :: chLB :: ' ' :: 's' :: 't' :: 'a' :: 't' :: 'u' :: 's' :: ':' :: ' ' ::
            (d ++ (' ' :: chRB :: [])) := rfl
      rw [hsi]
      exact findStatusCode_init d hd hd0
    have hlenX : body.length + (d.length + 15) = (body ++ statusTail d).length := by
      simp [statusTail]
    rw [hdrop1, htake1, hfs, List.take_left, hlenX, List.drop_length,
      removeNewWrapperL_nil]
    by_cases h200 : d = "200".toList
    · simp [h200]
    · simp [h200]

/-- The unwrap result of `removeNewWrapper` on a response-construction
call `<pfx><body>)` with no second argument: the payload is kept. -/
theorem removeNewWrapper_simple (pfx body : List Char) (hp : pfx ≠ [])
    (hb : ∀ c ∈ body, plainChar c = true) :
    removeNewWrapper (pfx ++ (body ++ [')'])) pfx = body := by
  cases pfx with
  | nil => exact absurd rfl hp
  | cons q qs =>
    show removeNewWrapperL (q :: qs) (((q :: qs) ++ (body ++ [')'])).length + 1)
      ((q :: qs) ++ (body ++ [')'])) 0 = _
    have hscan := scanNewArgs_trace_simple body hb (0 + (qs.length + 1))
    rw [removeNewWrapperL_nocomma q qs _ _ 0 _ hscan]
    have e1 : 0 + (qs.length + 1) + body.length + 1 - 1 - (0 + (qs.length + 1))
        = body.length := by omega
    have e2 : 0 + (qs.length + 1) + body.length + 1 - (0 + (qs.length + 1))
        = body.length + 1 := by omega
    rw [e1, e2]
    have hlenX : body.length + 1 = (body ++ [')']).length := by simp
    rw [List.take_left, hlenX, List.drop_length, removeNewWrapperL_nil,
      List.append_nil]

/-- The unwrap result of `removeNewWrapper` on a response-construction
call `<pfx><body>, { hi: 1 })` whose second argument carries no status
field: the payload is kept. -/
theorem removeNewWrapper_nostatus (pfx body : List Char) (hp : pfx ≠ [])
    (hb : ∀ c ∈ body, plainChar c = true) :
    removeNewWrapper (pfx ++ (body ++ noStatusTail)) pfx = body := by
  cases pfx with
  | nil => exact absurd rfl hp
  | cons q qs =>
    show removeNewWrapperL (q :: qs) (((q :: qs) ++ (body ++ noStatusTail)).length + 1)
      ((q :: qs) ++ (body ++ noStatusTail)) 0 = _
    have hscan := scanNewArgs_trace_nostatus body hb (0 + (qs.length + 1))
    rw [removeNewWrapperL_comma q qs _ _ 0 _ _ hscan (by omega)]
    have e1 : 0 + (qs.length + 1) + body.length + 1 - (0 + (qs.length + 1))
        = body.length + 1 := by omega
    have e2 : 0 + (qs.length + 1) + body.length + 12 - 1 -
        (0 + (qs.length + 1) + body.length + 1) = 10 := by omega
    have e3 : 0 + (qs.length + 1) + body.length - (0 + (qs.length + 1))
        = body.length := by omega
    have e4 : 0 + (qs.length + 1) + body.length + 12 - (0 + (qs.length + 1))
        = body.length + 12 := by omega
    rw [e1, e2, e3, e4]
    have hdrop1 : (body ++ noStatusTail).drop (body.length + 1)
        = ' ' :: chLB :: ' ' :: 'h' :: 'i' :: ':' :: ' ' :: '1' :: ' ' :: chRB :: ')' :: [] := by
      rw [show body ++ noStatusTail = (body ++ [','])
          ++ (' ' :: chLB :: ' ' :: 'h' :: 'i' :: ':' :: ' ' :: '1' :: ' ' :: chRB :: ')' :: [])
        by simp only [noStatusTail, List.cons_append, List.append_assoc, List.nil_append]]
      rw [show body.length + 1 = (body ++ [',']).length by simp, List.drop_left]
    have hfs : findStatusCode ((' ' :: chLB :: ' ' :: 'h' :: 'i' :: ':' :: ' ' :: '1' ::
        ' ' :: chRB :: ')' :: []).take 10) = none := by decide
    have hlenX : body.length + 12 = (body ++ noStatusTail).length := by
      simp [noStatusTail]
    rw [hdrop1, hfs, List.take_left, hlenX, List.drop_length,
      removeNewWrapperL_nil]
    simp

/-- Claim C3 (counterexample): the claim says a response-construction call
whose second argument carries a success status code is unwrapped to its
payload unchanged; but `removeNewWrapper` rewrites the call with status
literal `201` — an HTTP success code — into the thrown-error expression,
so the payload is not kept. -/
theorem claim_C3_counterexample :
    removeNewWrapper ("NextResponse.json(\x7b ok: true \x7d, \x7b status: 201 \x7d)".toList)
        ("NextResponse.json(".toList)
      = throwTemplate "\x7b ok: true \x7d".toList
    ∧ removeNewWrapper ("NextResponse.json(\x7b ok: true \x7d, \x7b status: 201 \x7d)".toList)
        ("NextResponse.json(".toList) ≠ "\x7b ok: true \x7d".toList := by
  constructor
  · decide
  · decide

/-- Claim C3 (amended): during body rewriting, a response-construction
call whose second constructor argument carries a numeric status literal
other than exactly `200` (including success codes such as `201`) is
rewritten into a thrown-error expression carrying the original payload as
message; a call whose status literal is exactly `200`, whose second
argument carries no status field, or which has no second argument, is
unwrapped to its payload argument unchanged. -/
theorem claim_C3 (pfx body d : List Char) (hp : pfx ≠ [])
    (hb : ∀ c ∈ body, plainChar c = true)
    (hd : ∀ c ∈ d, c.isDigit = true) (hd0 : d ≠ []) :
    (d ≠ "200".toList →
      removeNewWrapper (pfx ++ (body ++ statusTail d)) pfx = throwTemplate body)
    ∧ (d = "200".toList →
      removeNewWrapper (pfx ++ (body ++ statusTail d)) pfx = body)
    ∧ removeNewWrapper (pfx ++ (body ++ [')'])) pfx = body
    ∧ removeNewWrapper (pfx ++ (body ++ noStatusTail)) pfx = body := by
  refine ⟨?_, ?_, removeNewWrapper_simple pfx body hp hb,
    removeNewWrapper_nostatus pfx body hp hb⟩
  · intro hne
    rw [removeNewWrapper_status pfx body d hp hb hd hd0, if_neg hne]
  · intro heq
    rw [removeNewWrapper_status pfx body d hp hb hd hd0, if_pos heq]

/-- Claim C3 (witness): the amended theorem applied at concrete inputs —
a 404 status is rewritten to a throw and a 200 status is unwrapped. -/
theorem claim_C3_witness :
    removeNewWrapper ("new Response(".toList ++ ("payload".toList ++ statusTail "404".toList))
        ("new Response(".toList) = throwTemplate "payload".toList
    ∧ removeNewWrapper ("Response.json(".toList ++ ("payload".toList ++ statusTail "200".toList))
        ("Response.json(".toList) = "payload".toList := by
  constructor
  · exact (claim_C3 "new Response(".toList "payload".toList "404".toList (by decide)
      (by decide) (by decide) (by decide)).1 (by decide)
  · exact (claim_C3 "Response.json(".toList "payload".toList "200".toList (by decide)
      (by decide) (by decide) (by decide)).2.1 rfl

/-! ### Input-type inference (`type-utils.ts`) -/

/-- Usage evidence collected for one accessed property of the payload
binding by the structural inference of `determineInputType` (type-utils
lines 101-210): nested-property access (`record`), constant-indexed
element access or array-method calls (`array`), arithmetic or
number-method evidence (`number`), string evidence (`string`),
equality/logical/negation evidence (`boolean`), and inconclusive `+`
evidence (`unknownEv`, added but never tested by the classifier). -/
structure PropUsage where
  record : Bool
  array : Bool
  number : Bool
  string : Bool
  boolean : Bool
  unknownEv : Bool

/-- The classification decision tree of `determineInputType` (type-utils
lines 212-233) mapping one property's usage evidence to a type text. -/
def classifyPropType (u : PropUsage) : String :=
  if u.array then
    if u.number && !u.string then "number[]"
    else if u.string && !u.number then "string[]"
    else "unknown[]"
  else if u.record && !u.array && !u.number && !u.string && !u.boolean then
    "Record<string, unknown>"
  else if u.boolean && !u.number && !u.string then "boolean"
  else if u.number && !u.string then "number"
  else if u.string && !u.number then "string"
  else "unknown"

/-- The record type text produced by the structural inference (type-utils
lines 236-237): the observed properties joined as `name: type` fields. -/
def renderStructural (props : List (String × PropUsage)) : String :=
  "\x7b " ++ String.intercalate "; "
    (props.map (fun p => p.1 ++ ": " ++ classifyPropType p.2)) ++ " \x7d"

/-- Abstraction of the ts-morph scan performed by `determineInputType`
over one handler: whether the handler declares a request parameter
(type-utils lines 13-15); the type text resolved from a recognized
validator call applied to a payload-bound variable (strategy 1, lines
36-58), if one was found; the parameter annotation text of a locally
declared helper invoked with the payload-bound variable (strategy 2,
lines 60-76), if one was found; and the observed payload properties with
their usage evidence (strategy 3, lines 78-239 — nonempty only when a
payload-bound variable exists and at least one property access on it was
seen). -/
structure HandlerScan where
  paramPresent : Bool
  schemaResult : Option String
  helperResult : Option String
  structuralProps : List (String × PropUsage)

/-- `determineInputType` (type-utils lines 10-241) over the scan
abstraction: no handler node or no parameter yields `unknown`; otherwise
the strategies are tried in source order, falling back to `unknown`. -/
def determineInputType : Option HandlerScan → String
  | none => "unknown"
  | some s =>
    if !s.paramPresent then "unknown"
    else
      match s.schemaResult with
      | some t => t
      | none =>
        match s.helperResult with
        | some t => t
        | none =>
          if s.structuralProps.isEmpty then "unknown"
          else renderStructural s.structuralProps

/-- No payload use was detected by the analyzer: the handler is missing,
has no request parameter, or no inference strategy matched. -/
def noPayloadUseDetected : Option HandlerScan → Bool
  | none => true
  | some s =>
    !s.paramPresent ||
      (s.schemaResult.isNone && s.helperResult.isNone && s.structuralProps.isEmpty)

/-- The input-type refinement of `refineMethodTypes` (type-utils
line 333): `void` replaces `unknown` exactly for GET. -/
def refineInputType (name inferred : String) : String :=
  if inferred = "unknown" ∧ name = "GET" then "void" else inferred

/-- One analyzed handler: its verb and the scan of its body. -/
structure AnalyzedMethod where
  name : String
  scan : Option HandlerScan

/-- `refineMethodTypes` (type-utils lines 325-337), input-type part: each
method's `inputType` becomes the refined result of `determineInputType`. -/
def refineMethodTypes (ms : List AnalyzedMethod) : List (String × String) :=
  ms.map (fun m => (m.name, refineInputType m.name (determineInputType m.scan)))

/-- The structural record text is never the literal `void` or `unknown`
(it always opens with a curly brace). -/
theorem renderStructural_head (props : List (String × PropUsage)) :
    (renderStructural props).data.head? = some chLB := by
  show (("\x7b " ++ String.intercalate "; "
      (props.map (fun p => p.1 ++ ": " ++ classifyPropType p.2))) ++ " \x7d").data.head?
    = some chLB
  rw [String.data_append, String.data_append]
  rfl

/-- The structural record text is never the literal `void` or `unknown`
(it always opens with a curly brace). -/
theorem renderStructural_ne (props : List (String × PropUsage)) :
    renderStructural props ≠ "void" ∧ renderStructural props ≠ "unknown" := by
  constructor <;>
    (intro h
     have h1 := renderStructural_head props
     rw [h] at h1
     exact absurd h1 (by decide))

/-- Claim C2: for every Handler Descriptor produced by analysis,
`inputType` is `void` only when the verb is GET and no payload use was
detected, and every non-GET handler in which no payload use was detected
gets `unknown` — provided the type texts resolved by the validator and
helper-annotation strategies are never the literal texts `void` or
`unknown` (which holds for every schema in this repository's routes). -/
theorem claim_C2 (name : String) (scan : Option HandlerScan)
    (hGood : ∀ s, scan = some s →
      (∀ t, s.schemaResult = some t → t ≠ "void" ∧ t ≠ "unknown") ∧
      (∀ t, s.helperResult = some t → t ≠ "void" ∧ t ≠ "unknown")) :
    (refineInputType name (determineInputType scan) = "void" →
      name = "GET" ∧ noPayloadUseDetected scan = true)
    ∧ (name ≠ "GET" → noPayloadUseDetected scan = true →
      refineInputType name (determineInputType scan) = "unknown") := by
  cases scan with
  | none =>
    by_cases hn : name = "GET" <;>
      simp [determineInputType, refineInputType, noPayloadUseDetected, hn]
  | some s =>
    obtain ⟨hsch, hhelp⟩ := hGood s rfl
    obtain ⟨pp, sr, hr, props⟩ := s
    cases pp with
    | false =>
      by_cases hn : name = "GET" <;>
        simp [determineInputType, refineInputType, noPayloadUseDetected, hn]
    | true =>
      cases sr with
      | some t =>
        obtain ⟨ht1, ht2⟩ := hsch t rfl
        simp [determineInputType, refineInputType, noPayloadUseDetected, ht1, ht2]
      | none =>
        cases hr with
        | some t =>
          obtain ⟨ht1, ht2⟩ := hhelp t rfl
          simp [determineInputType, refineInputType, noPayloadUseDetected, ht1, ht2]
        | none =>
          cases props with
          | nil =>
            by_cases hn : name = "GET" <;>
              simp [determineInputType, refineInputType, noPayloadUseDetected, hn]
          | cons p ps =>
            obtain ⟨hr1, hr2⟩ := renderStructural_ne (p :: ps)
            simp [determineInputType, refineInputType, noPayloadUseDetected, hr1, hr2]

/-- Claim C2 (witness): a GET handler with a request parameter but no
matched strategy gets `void`; a POST handler in the same situation gets
`unknown`. -/
theorem claim_C2_witness :
    ("GET" = "GET" ∧
      noPayloadUseDetected (some ⟨true, none, none, []⟩) = true)
    ∧ refineInputType "POST"
        (determineInputType (some ⟨true, none, none, []⟩)) = "unknown" := by
  have hGood : ∀ s, (some (⟨true, none, none, []⟩ : HandlerScan)) = some s →
      (∀ t, s.schemaResult = some t → t ≠ "void" ∧ t ≠ "unknown") ∧
      (∀ t, s.helperResult = some t → t ≠ "void" ∧ t ≠ "unknown") := by
    intro s h
    cases h
    refine ⟨?_, ?_⟩ <;> (intro t ht; cases ht)
  constructor
  · exact (claim_C2 "GET" (some ⟨true, none, none, []⟩) hGood).1 (by decide)
  · exact (claim_C2 "POST" (some ⟨true, none, none, []⟩) hGood).2
      (by decide) (by decide)

/-! ### Route tree data model (`types.ts`) and builder (`route-parser`
lines 343-428) -/

/-- One named import binding `{ name as alias }` of an import
declaration.  The source's `alias` field is called `aliasName` here,
`alias` being a Lean keyword. -/
structure NamedImportInfo where
  name : String
  aliasName : Option String
deriving DecidableEq, Repr

/-- `ImportDeclarationInfo` from `types.ts`: one import declaration of a
route file. -/
structure ImportDeclarationInfo where
  moduleSpecifier : String
  defaultImport : Option String
  namespaceImport : Option String
  namedImports : List NamedImportInfo
  isTypeOnly : Bool
deriving DecidableEq, Repr

/-- `MethodInfo` from `types.ts`: one HTTP-verb handler of a route file,
with the analysis results attached by the handler analyzer. -/
structure MethodInfo where
  name : String
  returnType : String
  inputType : String
  paramName : Option String
  bodyVariableName : Option String
  bodyParams : Option (List String)
  handlerCode : Option String
deriving DecidableEq, Repr

/-- `RouteNode` from `types.ts`: one retained directory segment.  The
JavaScript `children` object is modelled as an association list in
insertion order; `node.children[key] = v` replaces in place when the key
exists and appends otherwise, as JavaScript property assignment does. -/
inductive RouteNode where
  | mk (segment : String) (methods : List MethodInfo)
      (children : List (String × RouteNode))
      (imports : List ImportDeclarationInfo)

/-- The `segment` field of a route node. -/
def RouteNode.segment : RouteNode → String
  | .mk s _ _ _ => s

/-- The `methods` field of a route node. -/
def RouteNode.methods : RouteNode → List MethodInfo
  | .mk _ ms _ _ => ms

/-- The `children` field of a route node. -/
def RouteNode.children : RouteNode → List (String × RouteNode)
  | .mk _ _ cs _ => cs

/-- The `imports` field of a route node (`[]` models the absent field). -/
def RouteNode.imports : RouteNode → List ImportDeclarationInfo
  | .mk _ _ _ is => is

/-- JavaScript property assignment `obj[key] = v` on the children object:
replace in place when the key exists (keeping its position), append
otherwise. -/
def childInsert : List (String × RouteNode) → String → RouteNode → List (String × RouteNode)
  | [], k, v => [(k, v)]
  | (k0, v0) :: rest, k, v =>
    if k0 = k then (k, v) :: rest else (k0, v0) :: childInsert rest k v

/-- `Object.assign(target, src)` on children objects: assign each entry
of `src` in order. -/
def childAssign (target src : List (String × RouteNode)) : List (String × RouteNode) :=
  src.foldl (fun acc p => childInsert acc p.1 p.2) target

/-- JavaScript `String.prototype.startsWith` on Lean strings. -/
def jsStartsWith (s pre : String) : Bool :=
  pre.toList.isPrefixOf s.toList

/-- JavaScript `String.prototype.endsWith` on Lean strings. -/
def jsEndsWith (s suf : String) : Bool :=
  suf.toList.isSuffixOf s.toList

/-- JavaScript `seg.slice(a, -1)` on strings with a non-negative start. -/
def jsSliceNeg (s : String) (a : Nat) : String :=
  String.mk ((s.toList.drop a).dropLast)

/-- JavaScript `String.prototype.toLowerCase` (ASCII range, which covers
every directory name this repository uses). -/
def jsToLower (s : String) : String :=
  String.mk (s.toList.map Char.toLower)

/-- The child-key computation of `processChildDirectories` (route-parser
lines 394-401): strip catch-all brackets `[...x]` to `x`, dynamic
brackets `[x]` to `x`, and keep static names. -/
def stripKey (seg : String) : String :=
  if jsStartsWith seg "[..." && jsEndsWith seg "]" then jsSliceNeg seg 4
  else if jsStartsWith seg "[" && jsEndsWith seg "]" then jsSliceNeg seg 1
  else seg

/-- A route-group segment: wrapped in parentheses (route-parser
line 384). -/
def isGroup (seg : String) : Bool :=
  jsStartsWith seg "(" && jsEndsWith seg ")"

/-- The reserved method-collector segment: `api`, case-insensitively
(route-parser line 377). -/
def isApi (seg : String) : Bool :=
  jsToLower seg = "api"

/-- A hidden directory, skipped by the walk (route-parser line 371). -/
def isHidden (seg : String) : Bool :=
  jsStartsWith seg "."

/-- A directory of the route source tree: its name, the methods and
imports its `route.ts` analysis yields (empty methods model a missing or
handler-free route file), and its subdirectories. -/
inductive Dir where
  | mk (name : String) (routeMethods : List MethodInfo)
      (routeImports : List ImportDeclarationInfo) (subdirs : List Dir)

/-- The directory's name. -/
def Dir.name : Dir → String
  | .mk n _ _ _ => n

/-- The directory's subdirectories. -/
def Dir.subdirs : Dir → List Dir
  | .mk _ _ _ ds => ds

mutual

/-- `parseRoutes` (route-parser lines 416-428): build the node for a
directory — its own route file's methods and imports (`processRouteFile`,
lines 343-359: imports are only attached when the file declares at least
one handler), then its classified children.  Sibling directories are
processed in list order; the source visits them concurrently, and the
claims proved below do not depend on the order. -/
def parseRoutes : Dir → RouteNode
  | .mk name ms imps subs =>
    processChildDirectories subs
      (.mk name ms [] (if ms.isEmpty then [] else imps))

/-- `processChildDirectories` (route-parser lines 367-408): hidden
directories are skipped; an `api` collector or parenthesized route-group
child has its methods and children merged directly into the current node;
any other child is inserted under its bracket-stripped key (the child's
`segment` is its directory name, as `parseRoutes` already sets). -/
def processChildDirectories : List Dir → RouteNode → RouteNode
  | [], node => node
  | d :: rest, node =>
    let node2 :=
      if isHidden (Dir.name d) then node
      else if isApi (Dir.name d) then
        let apiNode := parseRoutes d
        .mk node.segment (node.methods ++ apiNode.methods)
          (childAssign node.children apiNode.children) node.imports
      else if isGroup (Dir.name d) then
        let groupNode := parseRoutes d
        .mk node.segment (node.methods ++ groupNode.methods)
          (childAssign node.children groupNode.children) node.imports
      else
        let childNode := parseRoutes d
        .mk node.segment node.methods
          (childInsert node.children (stripKey (Dir.name d)) childNode) node.imports
    processChildDirectories rest node2

end

mutual

/-- The route-tree invariant of claim C4: every child entry is keyed by
its node's bracket-stripped segment, and no child node's segment is a
route-group or `api` collector segment, recursively. -/
def goodTree : RouteNode → Bool
  | .mk _ _ children _ => goodChildren children

/-- `goodTree` over a children list. -/
def goodChildren : List (String × RouteNode) → Bool
  | [] => true
  | (k, c) :: rest =>
    (k = stripKey c.segment && !isGroup c.segment && !isApi c.segment)
      && goodTree c && goodChildren rest

end

/-- `goodTree` through the children accessor. -/
theorem goodTree_eq (node : RouteNode) :
    goodTree node = goodChildren node.children := by
  cases node; rfl

/-- Inserting a well-keyed, well-formed child preserves the children
invariant. -/
theorem goodChildren_childInsert (cs : List (String × RouteNode))
    (k : String) (v : RouteNode) (hcs : goodChildren cs = true)
    (hk : k = stripKey v.segment) (hg : isGroup v.segment = false)
    (ha : isApi v.segment = false) (hv : goodTree v = true) :
    goodChildren (childInsert cs k v) = true := by
  induction cs with
  | nil =>
    simp [childInsert, goodChildren, hk, hg, ha, hv]
  | cons p rest ih =>
    obtain ⟨k0, v0⟩ := p
    simp only [goodChildren, Bool.and_eq_true, decide_eq_true_eq] at hcs
    obtain ⟨⟨⟨⟨hA, hB⟩, hC⟩, hD⟩, hE⟩ := hcs
    by_cases h : k0 = k
    · simp only [childInsert, if_pos h]
      simp [goodChildren, hk, hg, ha, hv, hE]
    · simp only [childInsert, if_neg h]
      simp only [goodChildren, Bool.and_eq_true, decide_eq_true_eq]
      exact ⟨⟨⟨⟨hA, hB⟩, hC⟩, hD⟩, ih hE⟩

/-- Assigning a well-formed children object into another preserves the
children invariant. -/
theorem goodChildren_childAssign (a b : List (String × RouteNode))
    (ha2 : goodChildren a = true) (hb : goodChildren b = true) :
    goodChildren (childAssign a b) = true := by
  induction b generalizing a with
  | nil => simpa [childAssign] using ha2
  | cons p rest ih =>
    obtain ⟨k, v⟩ := p
    simp only [goodChildren, Bool.and_eq_true, decide_eq_true_eq] at hb
    obtain ⟨⟨⟨⟨hA, hB⟩, hC⟩, hD⟩, hE⟩ := hb
    have hstep : goodChildren (childInsert a k v) = true :=
      goodChildren_childInsert a k v ha2 hA
        (by simpa using hB) (by simpa using hC) hD
    simpa [childAssign] using ih (childInsert a k v) hstep hE

/-- `processChildDirectories` never changes the node's segment. -/
theorem processChildDirectories_segment (subs : List Dir) :
    ∀ node, (processChildDirectories subs node).segment = node.segment := by
  induction subs with
  | nil => intro node; rfl
  | cons d rest ih =>
    intro node
    simp only [processChildDirectories]
    rw [ih]
    split_ifs <;> rfl

/-- `parseRoutes` keeps the directory's own name as the segment. -/
theorem parseRoutes_segment (d : Dir) : (parseRoutes d).segment = d.name := by
  obtain ⟨name, ms, imps, subs⟩ := d
  show (processChildDirectories subs _).segment = _
  rw [processChildDirectories_segment]
  rfl

/-- The key invariant of the route tree, by strong induction on size:
every tree `parseRoutes` builds satisfies `goodTree`, and processing a
children list preserves it. -/
theorem parseRoutes_good_aux : ∀ n : Nat,
    (∀ d : Dir, sizeOf d ≤ n → goodTree (parseRoutes d) = true) ∧
    (∀ (subs : List Dir) (node : RouteNode), sizeOf subs ≤ n →
      goodTree node = true → goodTree (processChildDirectories subs node) = true) := by
  intro n
  induction n using Nat.strong_induction_on with
  | _ n ih =>
    constructor
    · intro d hd
      obtain ⟨name, ms, imps, subs⟩ := d
      simp only [Dir.mk.sizeOf_spec] at hd
      have hsub : sizeOf subs < n := by omega
      show goodTree (processChildDirectories subs _) = true
      exact (ih (sizeOf subs) hsub).2 subs _ (Nat.le_refl _) (by rfl)
    · intro subs node hs hnode
      cases subs with
      | nil => simpa [processChildDirectories] using hnode
      | cons d rest =>
        simp only [List.cons.sizeOf_spec] at hs
        have hd : sizeOf d < n := by omega
        have hr : sizeOf rest < n := by omega
        have hdgood : goodTree (parseRoutes d) = true :=
          (ih (sizeOf d) hd).1 d (Nat.le_refl _)
        simp only [processChildDirectories]
        apply (ih (sizeOf rest) hr).2 rest _ (Nat.le_refl _)
        split_ifs with h1 h2 h3
        · exact hnode
        · rw [goodTree_eq]
          show goodChildren (childAssign node.children (parseRoutes d).children) = true
          exact goodChildren_childAssign _ _ (by rw [← goodTree_eq]; exact hnode)
            (by rw [← goodTree_eq]; exact hdgood)
        · rw [goodTree_eq]
          show goodChildren (childAssign node.children (parseRoutes d).children) = true
          exact goodChildren_childAssign _ _ (by rw [← goodTree_eq]; exact hnode)
            (by rw [← goodTree_eq]; exact hdgood)
        · rw [goodTree_eq]
          show goodChildren
            (childInsert node.children (stripKey (Dir.name d)) (parseRoutes d)) = true
          apply goodChildren_childInsert _ _ _ (by rw [← goodTree_eq]; exact hnode)
          · rw [parseRoutes_segment]
          · rw [parseRoutes_segment]
            simpa using h3
          · rw [parseRoutes_segment]
            simpa using h2
          · exact hdgood

/-- `childInsert` keeps every key already present. -/
theorem childInsert_key_mono (a : List (String × RouteNode)) (k : String)
    (v : RouteNode) (k2 : String) (h : k2 ∈ a.map Prod.fst) :
    k2 ∈ (childInsert a k v).map Prod.fst := by
  induction a with
  | nil => simp at h
  | cons p rest ih =>
    obtain ⟨k0, v0⟩ := p
    simp only [List.map_cons, List.mem_cons] at h
    by_cases hk : k0 = k
    · simp only [childInsert, if_pos hk, List.map_cons, List.mem_cons]
      rcases h with h | h
      · exact Or.inl (hk ▸ h)
      · exact Or.inr h
    · simp only [childInsert, if_neg hk, List.map_cons, List.mem_cons]
      rcases h with h | h
      · exact Or.inl h
      · exact Or.inr (ih h)

/-- `childInsert` makes its key present. -/
theorem childInsert_key_self (a : List (String × RouteNode)) (k : String)
    (v : RouteNode) : k ∈ (childInsert a k v).map Prod.fst := by
  induction a with
  | nil => simp [childInsert]
  | cons p rest ih =>
    obtain ⟨k0, v0⟩ := p
    by_cases hk : k0 = k
    · simp [childInsert, if_pos hk]
    · simp only [childInsert, if_neg hk, List.map_cons, List.mem_cons]
      exact Or.inr ih

/-- `childAssign` keeps every key of the target. -/
theorem childAssign_key_mono_left (a b : List (String × RouteNode))
    (k2 : String) (h : k2 ∈ a.map Prod.fst) :
    k2 ∈ (childAssign a b).map Prod.fst := by
  induction b generalizing a with
  | nil => simpa [childAssign] using h
  | cons p rest ih =>
    show k2 ∈ (childAssign (childInsert a p.1 p.2) rest).map Prod.fst
    exact ih _ (childInsert_key_mono a p.1 p.2 k2 h)

/-- `childAssign` introduces every key of the source. -/
theorem childAssign_key_mono_right (a b : List (String × RouteNode))
    (k2 : String) (h : k2 ∈ b.map Prod.fst) :
    k2 ∈ (childAssign a b).map Prod.fst := by
  induction b generalizing a with
  | nil => simp at h
  | cons p rest ih =>
    simp only [List.map_cons, List.mem_cons] at h
    show k2 ∈ (childAssign (childInsert a p.1 p.2) rest).map Prod.fst
    rcases h with h | h
    · exact childAssign_key_mono_left _ rest k2
        (h ▸ childInsert_key_self a p.1 p.2)
    · exact ih _ h

/-- Processing child directories never drops a method of the node. -/
theorem processChildDirectories_methods_mono (subs : List Dir) :
    ∀ node m, m ∈ node.methods →
      m ∈ (processChildDirectories subs node).methods := by
  induction subs with
  | nil => intro node m h; exact h
  | cons d rest ih =>
    intro node m h
    simp only [processChildDirectories]
    apply ih
    split_ifs <;> simp only [RouteNode.methods] <;>
      first
        | exact h
        | exact List.mem_append_left _ h

/-- Processing child directories never drops a child key of the node. -/
theorem processChildDirectories_childkey_mono (subs : List Dir) :
    ∀ node k, k ∈ node.children.map Prod.fst →
      k ∈ (processChildDirectories subs node).children.map Prod.fst := by
  induction subs with
  | nil => intro node k h; exact h
  | cons d rest ih =>
    intro node k h
    simp only [processChildDirectories]
    apply ih
    split_ifs <;> simp only [RouteNode.children]
    · exact h
    · exact childAssign_key_mono_left _ _ k h
    · exact childAssign_key_mono_left _ _ k h
    · exact childInsert_key_mono _ _ _ k h

/-- The merge half of claim C4: an `api`-collector or route-group child
directory contributes all of its methods and all of its children keys
directly to the node being built. -/
theorem processChildDirectories_merges (subs : List Dir) :
    ∀ (node : RouteNode) (sub : Dir), sub ∈ subs →
      isHidden sub.name = false →
      (isApi sub.name = true ∨ isGroup sub.name = true) →
      (∀ m ∈ (parseRoutes sub).methods,
        m ∈ (processChildDirectories subs node).methods) ∧
      (∀ k ∈ (parseRoutes sub).children.map Prod.fst,
        k ∈ (processChildDirectories subs node).children.map Prod.fst) := by
  induction subs with
  | nil => intro node sub h; exact absurd h (List.not_mem_nil sub)
  | cons d rest ih =>
    intro node sub hmem hhid hag
    rcases List.mem_cons.mp hmem with heq | htail
    · subst heq
      constructor
      · intro m hm
        simp only [processChildDirectories]
        apply processChildDirectories_methods_mono
        rw [if_neg (by simp [hhid])]
        rcases hag with hapi | hgrp
        · rw [if_pos hapi]
          exact List.mem_append_right _ hm
        · by_cases hapi : isApi sub.name = true
          · rw [if_pos hapi]
            exact List.mem_append_right _ hm
          · rw [if_neg (by simp at hapi ⊢; exact hapi), if_pos hgrp]
            exact List.mem_append_right _ hm
      · intro k hk
        simp only [processChildDirectories]
        apply processChildDirectories_childkey_mono
        rw [if_neg (by simp [hhid])]
        rcases hag with hapi | hgrp
        · rw [if_pos hapi]
          exact childAssign_key_mono_right _ _ k hk
        · by_cases hapi : isApi sub.name = true
          · rw [if_pos hapi]
            exact childAssign_key_mono_right _ _ k hk
          · rw [if_neg (by simp at hapi ⊢; exact hapi), if_pos hgrp]
            exact childAssign_key_mono_right _ _ k hk
    · simp only [processChildDirectories]
      exact ih _ sub htail hhid hag

/-- Claim C4: every route tree produced by `parseRoutes` satisfies the
children-key invariant — each child is keyed by its segment with
bracket/parenthesis decoration stripped, and no node of the tree is a
route-group segment or the case-insensitive `api` collector segment —
and for any directory, the methods and children keys of a non-hidden
`api`-collector or route-group child directory are merged directly into
the parent's node. -/
theorem claim_C4 :
    (∀ d : Dir, goodTree (parseRoutes d) = true) ∧
    (∀ (name : String) (ms : List MethodInfo)
        (imps : List ImportDeclarationInfo) (subs : List Dir) (sub : Dir),
      sub ∈ subs → isHidden sub.name = false →
      (isApi sub.name = true ∨ isGroup sub.name = true) →
      (∀ m ∈ (parseRoutes sub).methods,
        m ∈ (parseRoutes (Dir.mk name ms imps subs)).methods) ∧
      (∀ k ∈ (parseRoutes sub).children.map Prod.fst,
        k ∈ (parseRoutes (Dir.mk name ms imps subs)).children.map Prod.fst)) := by
  constructor
  · intro d
    exact (parseRoutes_good_aux (sizeOf d)).1 d (Nat.le_refl _)
  · intro name ms imps subs sub hmem hhid hag
    exact processChildDirectories_merges subs _ sub hmem hhid hag

/-- Witness for C4 at a concrete directory layout: an `app` root holding
an `api` collector directory whose route file declares a GET handler.
The parsed tree satisfies the invariant and the collector's GET method is
merged into the root node. -/
theorem claim_C4_witness :
    goodTree (parseRoutes (Dir.mk "app" [] []
      [Dir.mk "api" [⟨"GET", "Promise<number>", "void",
        none, none, none, none⟩] [] []])) = true ∧
    (⟨"GET", "Promise<number>", "void", none, none, none, none⟩ :
        MethodInfo) ∈
      (parseRoutes (Dir.mk "app" [] []
        [Dir.mk "api" [⟨"GET", "Promise<number>", "void",
          none, none, none, none⟩] [] []])).methods := by
  constructor
  · exact claim_C4.1 _
  · exact (claim_C4.2 "app" [] []
      [Dir.mk "api" [⟨"GET", "Promise<number>", "void",
        none, none, none, none⟩] [] []]
      (Dir.mk "api" [⟨"GET", "Promise<number>", "void",
        none, none, none, none⟩] [] [])
      (by simp) (by decide) (Or.inl (by decide))).1 _ (by decide)

/-! ### Claim C1: the infinite-pagination server accessor

`src/app/infinite/route.ts` declares a GET handler opening with the
`'use infinite'` marker, slicing a fixed 50-item `ALL_POSTS` source with
`PAGE_SIZE = 10`.  `buildMethodHandlerCode`
(server-code-builder lines 35-54) detects the marker, filters out the
marker line, the `req.nextUrl` destructuring and the `const page = ...`
line, and prepends `  const page = pageParam;`, so the emitted accessor
computes the very same slice with `page` bound to the call's page
argument.  We embed both the line filter (textual) and the replayed
computation (semantic). -/

/-- `Array.prototype.slice` index normalization: a negative index counts
from the end and both are clamped to `[0, length]`. -/
def jsSliceIdx (n : Nat) (i : Int) : Nat :=
  if i < 0 then ((n : Int) + i).toNat else min i.toNat n

/-- JavaScript `Array.prototype.slice(start, end)`. -/
def jsSlice {α : Type} (l : List α) (s e : Int) : List α :=
  let a := jsSliceIdx l.length s
  let b := jsSliceIdx l.length e
  (l.drop a).take (b - a)

/-- The regex `^\s*const \{\s*searchParams.*\}` of the infinite-branch
line filter (server-code-builder line 41). -/
def matchesSearchParamsDestructure (line : String) : Bool :=
  let l := line.data.dropWhile isJsSpace
  let pat : List Char := "const ".data ++ [chLB]
  if pat.isPrefixOf l then
    let l2 := (l.drop pat.length).dropWhile isJsSpace
    "searchParams".data.isPrefixOf l2 && (l2.drop 12).contains chRB
  else false

/-- The regex `^\s*const page =` of the infinite-branch line filter
(server-code-builder line 42). -/
def matchesConstPage (line : String) : Bool :=
  "const page =".data.isPrefixOf (line.data.dropWhile isJsSpace)

/-- One handler line is dropped by the infinite branch
(server-code-builder lines 37-43). -/
def infiniteLineRemoved (line : String) : Bool :=
  jsIncludes line.data "use infinite".data ||
  jsIncludes line.data "req.nextUrl".data ||
  jsIncludes line.data "await req.json()".data ||
  matchesSearchParamsDestructure line ||
  matchesConstPage line

/-- The infinite-branch body builder (server-code-builder lines 49-53):
`const page = pageParam;` followed by the surviving handler lines, each
indented two spaces. -/
def buildInfiniteBody (handlerLines : List String) : List String :=
  "  const page = pageParam;" ::
    (handlerLines.filter (fun l => !infiniteLineRemoved l)).map
      (fun l => "  " ++ l)

/-- The handler-code lines of the infinite route's GET handler as the
route parser stores them: the used top-level declarations (`ALL_POSTS`,
`PAGE_SIZE`) prepended to the handler body, with the
`return NextResponse.json(...)` wrapper already unwrapped to its payload. -/
def infiniteGetHandlerLines : List String :=
  [ "const ALL_POSTS = Array.from(\x7b length: 50 \x7d, (_, i) => (\x7b",
    "    id: i + 1,",
    "    title: `Post $\x7bi + 1\x7d`,",
    "\x7d));",
    "const PAGE_SIZE = 10;",
    "'use infinite';",
    "",
    "    const \x7b searchParams \x7d = req.nextUrl;",
    "    const page = parseInt(searchParams.get('pagination') || '1', 10);",
    "",
    "    const start = (page - 1) * PAGE_SIZE;",
    "    const end = start + PAGE_SIZE;",
    "    const items = ALL_POSTS.slice(start, end);",
    "",
    "    const hasNextPage = end < ALL_POSTS.length;",
    "    const nextPage = hasNextPage ? page + 1 : null;",
    "",
    "    return \x7b",
    "        items,",
    "        nextPage,",
    "    \x7d;" ]

/-- The body the infinite branch emits for that handler: `page` is bound
to `pageParam` and the slice computation survives verbatim. -/
def infiniteGetBodyLines : List String :=
  [ "  const page = pageParam;",
    "  const ALL_POSTS = Array.from(\x7b length: 50 \x7d, (_, i) => (\x7b",
    "      id: i + 1,",
    "      title: `Post $\x7bi + 1\x7d`,",
    "  \x7d));",
    "  const PAGE_SIZE = 10;",
    "  ",
    "  ",
    "      const start = (page - 1) * PAGE_SIZE;",
    "      const end = start + PAGE_SIZE;",
    "      const items = ALL_POSTS.slice(start, end);",
    "  ",
    "      const hasNextPage = end < ALL_POSTS.length;",
    "      const nextPage = hasNextPage ? page + 1 : null;",
    "  ",
    "      return \x7b",
    "          items,",
    "          nextPage,",
    "      \x7d;" ]

/-- One element of the route's simulated data source. -/
structure Post where
  id : Nat
  title : String
deriving DecidableEq, Repr

/-- `ALL_POSTS` of `src/app/infinite/route.ts`: 50 posts with ids 1-50. -/
def ALL_POSTS : List Post :=
  (List.range 50).map (fun i => ⟨i + 1, "Post " ++ toString (i + 1)⟩)

/-- `PAGE_SIZE` of `src/app/infinite/route.ts`. -/
def PAGE_SIZE : Int := 10

/-- The value the generated accessor returns: the unwrapped
`\x7b items, nextPage \x7d` payload. -/
structure InfinitePage where
  items : List Post
  nextPage : Option Int
deriving DecidableEq, Repr

/-- The replayed computation of the emitted GET accessor: `page` is the
`pageParam` argument; `start`, the slice, `hasNextPage` and `nextPage`
follow the surviving handler lines.  The source's local `end` is named
`stop` here (`end` is reserved in Lean). -/
def infiniteServerGET (pageParam : Int) : InfinitePage :=
  let page := pageParam
  let start := (page - 1) * PAGE_SIZE
  let stop := start + PAGE_SIZE
  let items := jsSlice ALL_POSTS start stop
  let hasNextPage := stop < (ALL_POSTS.length : Int)
  let nextPage := if hasNextPage then some (page + 1) else none
  ⟨items, nextPage⟩

/-- Counterexample to claim C1: called with page argument 5, the
generated accessor returns 10 items (ids 41-50), not 0 items — the
source has exactly 50 items, so page 5 is the last full page. -/
theorem claim_C1_counterexample :
    ¬ ((infiniteServerGET 5).items.length = 0) := by decide

/-- Claim C1, amended: the infinite branch rebinds `page` to the call's
page argument and keeps the slice computation; the accessor then returns
10 items and next page 2 at page 1, 10 items and a null next page at
page 5 (the last page of the 50-item source), and 0 items with a null
next page at page 6. -/
theorem claim_C1 :
    buildInfiniteBody infiniteGetHandlerLines = infiniteGetBodyLines ∧
    (infiniteServerGET 1).items.length = 10 ∧
    (infiniteServerGET 1).nextPage = some 2 ∧
    (infiniteServerGET 5).items.length = 10 ∧
    (infiniteServerGET 5).nextPage = none ∧
    (infiniteServerGET 6).items.length = 0 ∧
    (infiniteServerGET 6).nextPage = none := by
  refine ⟨?_, ?_, ?_, ?_, ?_, ?_, ?_⟩ <;> rfl

/-! ### Claim C10: the `.json(` line filter of the server emitter

`buildMethodHandlerCode` (server-code-builder lines 56-61), in the branch
taken when the handler carries no redirect call and no `'use infinite'`
marker, removes the first `'use mutation'` line and then — for non-GET
methods only — drops every line containing the substring `.json(`. -/

/-- `handlerRawLines.splice(mutationIndex, 1)` after
`findIndex(line => line.includes('use mutation'))`: remove the first line
containing `use mutation`, keep the list unchanged when there is none. -/
def spliceUseMutation : List String → List String
  | [] => []
  | l :: rest =>
    if jsIncludes l.data "use mutation".data then rest
    else l :: spliceUseMutation rest

/-- The line processing of `buildMethodHandlerCode` up to line 61:
`none` when the redirect or infinite branch is taken instead, otherwise
the code lines the replayed body is built from. -/
def serverCodeLines (methodName : String) (ls : List String) :
    Option (List String) :=
  if ls.any (fun l => jsIncludes l.data "NextResponse.redirect".data) then
    none
  else if ls.any (fun l => jsIncludes l.data "use infinite".data) then
    none
  else
    let afterSplice := spliceUseMutation ls
    some (if methodName = "GET" then afterSplice
      else afterSplice.filter (fun l => !(jsIncludes l.data ".json(".data)))

/-- Claim C10: for a handler with no redirect call and no pagination
marker, a GET method keeps every line after the mutation-marker splice,
while a non-GET method additionally drops exactly those lines whose text
contains the substring `.json(` — membership in the emitted lines is
equivalent to surviving the splice and not containing `.json(`,
irrespective of what the line does. -/
theorem claim_C10 (name : String) (ls : List String)
    (hred : ls.any (fun l => jsIncludes l.data "NextResponse.redirect".data)
      = false)
    (hinf : ls.any (fun l => jsIncludes l.data "use infinite".data) = false) :
    (name = "GET" → serverCodeLines name ls = some (spliceUseMutation ls)) ∧
    (name ≠ "GET" →
      serverCodeLines name ls = some ((spliceUseMutation ls).filter
        (fun l => !(jsIncludes l.data ".json(".data))) ∧
      ∀ l : String,
        (l ∈ (spliceUseMutation ls).filter
            (fun l2 => !(jsIncludes l2.data ".json(".data)) ↔
          l ∈ spliceUseMutation ls ∧
            jsIncludes l.data ".json(".data = false)) := by
  constructor
  · intro hg
    simp [serverCodeLines, hred, hinf, hg]
  · intro hg
    constructor
    · simp [serverCodeLines, hred, hinf, hg]
    · intro l
      simp [List.mem_filter]

/-- Witness for C10: a mutation POST handler whose `.json(` line does not
even touch the request payload is still dropped, while the same lines
under GET all survive. -/
theorem claim_C10_witness :
    serverCodeLines "POST"
      [ "'use mutation';",
        "const cfg = await settings.json();",
        "console.log(cfg);",
        "return \x7b data: cfg \x7d;" ] =
      some ["console.log(cfg);", "return \x7b data: cfg \x7d;"] ∧
    serverCodeLines "GET"
      [ "'use mutation';",
        "const cfg = await settings.json();",
        "console.log(cfg);",
        "return \x7b data: cfg \x7d;" ] =
      some ["const cfg = await settings.json();", "console.log(cfg);",
        "return \x7b data: cfg \x7d;"] := by
  constructor
  · have h := (claim_C10 "POST"
      [ "'use mutation';",
        "const cfg = await settings.json();",
        "console.log(cfg);",
        "return \x7b data: cfg \x7d;" ] (by decide) (by decide)).2
      (by decide)
    rw [h.1]
    rfl
  · have h := (claim_C10 "GET"
      [ "'use mutation';",
        "const cfg = await settings.json();",
        "console.log(cfg);",
        "return \x7b data: cfg \x7d;" ] (by decide) (by decide)).1 rfl
    rw [h]
    rfl

/-! ### Claim C5: dealiasing of identifiers imported under one name

`countImportIdentifiers` (api-sdk.ts lines 106-119) counts each bound
identifier; `applyImportAliases` (lines 126-158) walks the imports with a
`used` occurrence map and rewrites every occurrence after the first to
`name_occ`.  JavaScript `Map`s are embedded as association lists with
first-match lookup and in-place overwrite. -/

/-- `map.get(k) || 0` on a JavaScript `Map<string, number>`. -/
def mapGetN (m : List (String × Nat)) (k : String) : Nat :=
  (m.lookup k).getD 0

/-- `map.set(k, v)`: overwrite in place, else append. -/
def mapSet : List (String × Nat) → String → Nat → List (String × Nat)
  | [], k, v => [(k, v)]
  | (k0, v0) :: rest, k, v =>
    if k0 = k then (k, v) :: rest else (k0, v0) :: mapSet rest k v

/-- `map.set(k, (map.get(k) || 0) + 1)`. -/
def mapBump (m : List (String × Nat)) (k : String) : List (String × Nat) :=
  mapSet m k (mapGetN m k + 1)

/-- JavaScript `ni.alias || ni.name` (an absent or empty alias is falsy). -/
def orName (a : Option String) (n : String) : String :=
  match a with
  | some s => if s = "" then n else s
  | none => n

/-- JavaScript truthiness of an optional string field. -/
def strPresent : Option String → Bool
  | some s => s ≠ ""
  | none => false

/-- `countImportIdentifiers` (api-sdk.ts lines 106-119): occurrences of
each default, namespace and named (alias-or-name) identifier. -/
def countImportIdentifiers (imports : List ImportDeclarationInfo) :
    List (String × Nat) :=
  imports.foldl (fun m imp =>
    let m1 := match imp.defaultImport with
      | some d => if d = "" then m else mapBump m d
      | none => m
    let m2 := match imp.namespaceImport with
      | some ns => if ns = "" then m1 else mapBump m1 ns
      | none => m1
    imp.namedImports.foldl (fun acc ni =>
      mapBump acc (orName ni.aliasName ni.name)) m2) []

/-- The default-import branch of `applyImportAliases` (lines 134-141).
The source keys the `used.set` by `imp.defaultImport` AFTER the possible
reassignment, i.e. by the mutated name. -/
def aliasDefault (used : List (String × Nat))
    (nameCount : List (String × Nat)) (d : String) :
    String × List (String × Nat) :=
  let count := mapGetN nameCount d
  if count > 1 then
    let occ := mapGetN used d
    let d2 := if occ > 0 then d ++ "_" ++ toString occ else d
    (d2, mapSet used d2 (occ + 1))
  else (d, used)

/-- The named-import branch of `applyImportAliases` (lines 150-157): here
the `used.set` is keyed by the original `importName`. -/
def aliasNamed (used : List (String × Nat))
    (nameCount : List (String × Nat)) (ni : NamedImportInfo) :
    NamedImportInfo × List (String × Nat) :=
  let importName := orName ni.aliasName ni.name
  let cnt := mapGetN nameCount importName
  if cnt > 1 then
    let occ := mapGetN used importName
    let ni2 := if occ > 0 then
        { ni with aliasName := some (ni.name ++ "_" ++ toString occ) }
      else ni
    (ni2, mapSet used importName (occ + 1))
  else (ni, used)

/-- `applyImportAliases` (api-sdk.ts lines 126-158), with the in-place
mutation of the import objects rendered as a rebuilt list. -/
def applyImportAliases (imports : List ImportDeclarationInfo)
    (nameCount : List (String × Nat)) : List ImportDeclarationInfo :=
  (imports.foldl (fun acc imp =>
    let (done, used0) := acc
    let (d2, used1) :=
      match imp.defaultImport with
      | some d =>
        if d = "" then (imp.defaultImport, used0)
        else
          let (d2, u) := aliasDefault used0 nameCount d
          (some d2, u)
      | none => (none, used0)
    let (ns2, used2) :=
      match imp.namespaceImport with
      | some ns =>
        if ns = "" then (imp.namespaceImport, used1)
        else
          let (ns2, u) := aliasDefault used1 nameCount ns
          (some ns2, u)
      | none => (none, used1)
    let (nis2, used3) := imp.namedImports.foldl (fun acc2 ni =>
      let (nis, u) := acc2
      let (ni2, u2) := aliasNamed u nameCount ni
      (nis ++ [ni2], u2)) (([] : List NamedImportInfo), used2)
    (done ++
        [{ imp with
            defaultImport := d2
            namespaceImport := ns2
            namedImports := nis2 }],
      used3))
    (([] : List ImportDeclarationInfo), ([] : List (String × Nat)))).1

/-- `aliasConflictingImports` (api-sdk.ts lines 164-167). -/
def aliasConflictingImports (imports : List ImportDeclarationInfo) :
    List ImportDeclarationInfo :=
  applyImportAliases imports (countImportIdentifiers imports)

/-- The identifiers an import declaration binds after dealiasing. -/
def importBindings (imp : ImportDeclarationInfo) : List String :=
  (match imp.defaultImport with
    | some d => if d = "" then [] else [d]
    | none => []) ++
  (match imp.namespaceImport with
    | some ns => if ns = "" then [] else [ns]
    | none => []) ++
  imp.namedImports.map (fun ni => orName ni.aliasName ni.name)

/-- All identifiers a dealiased import list binds, in order. -/
def allBindings (imports : List ImportDeclarationInfo) : List String :=
  (imports.map importBindings).flatten

/-- Three default imports of `x` from three modules. -/
def c5DefaultInput : List ImportDeclarationInfo :=
  [ ⟨"./a", some "x", none, [], false⟩,
    ⟨"./b", some "x", none, [], false⟩,
    ⟨"./c", some "x", none, [], false⟩ ]

/-- Three named imports of `x` from three modules. -/
def c5NamedInput : List ImportDeclarationInfo :=
  [ ⟨"./a", none, none, [⟨"x", none⟩], false⟩,
    ⟨"./b", none, none, [⟨"x", none⟩], false⟩,
    ⟨"./c", none, none, [⟨"x", none⟩], false⟩ ]

/-- Claim C5 is a code bug: for three default imports of the same
identifier the second and third occurrence both become `x_1`, because the
default (and namespace) branch records the occurrence under the mutated
name, so the final bindings are not pairwise distinct; the named-import
branch, which records under the original name, produces the intended
`x`, `x_1`, `x_2`. -/
theorem claim_C5 :
    allBindings (aliasConflictingImports c5DefaultInput) =
      ["x", "x_1", "x_1"] ∧
    ¬ (allBindings (aliasConflictingImports c5DefaultInput)).Nodup ∧
    allBindings (aliasConflictingImports c5NamedInput) =
      ["x", "x_1", "x_2"] := by
  refine ⟨rfl, by decide, rfl⟩

/-! ### Claim C8: aggregation of per-node imports by module specifier

`combineImports` (api-sdk.ts lines 55-79) folds the collected imports
into a `Map` keyed by `moduleSpecifier`: the first contributor is copied,
later contributors merge their default/namespace/named imports into the
existing entry in place.  A conflicting second default import is recorded
as a synthesized named import `\x7b name: d, alias: d + '_' \x7d`. -/

/-- `map.set(k, v)` on a JavaScript `Map<string, α>`: overwrite in place,
else append (JS maps keep insertion order). -/
def assocSet {α : Type} : List (String × α) → String → α → List (String × α)
  | [], k, v => [(k, v)]
  | (k0, v0) :: rest, k, v =>
    if k0 = k then (k, v) :: rest else (k0, v0) :: assocSet rest k v

/-- The default-import merge step of `combineImports` (lines 65-68). -/
def mergeDefault (existing imp : ImportDeclarationInfo) :
    ImportDeclarationInfo :=
  if strPresent imp.defaultImport then
    if !(strPresent existing.defaultImport) then
      { existing with defaultImport := imp.defaultImport }
    else if existing.defaultImport ≠ imp.defaultImport then
      { existing with namedImports := existing.namedImports ++
          [⟨imp.defaultImport.getD "",
            some (imp.defaultImport.getD "" ++ "_")⟩] }
    else existing
  else existing

/-- The namespace-import merge step of `combineImports` (line 69). -/
def mergeNamespace (e imp : ImportDeclarationInfo) : ImportDeclarationInfo :=
  if strPresent imp.namespaceImport && !(strPresent e.namespaceImport) then
    { e with namespaceImport := imp.namespaceImport }
  else e

/-- One step of the named-import merge loop (lines 70-74): push the
entry unless an entry with the same name and alias already exists. -/
def addNamed (e : ImportDeclarationInfo) (ni : NamedImportInfo) :
    ImportDeclarationInfo :=
  if e.namedImports.any
      (fun x => x.name = ni.name && x.aliasName = ni.aliasName) then e
  else { e with namedImports := e.namedImports ++ [ni] }

/-- The whole named-import merge loop. -/
def addAllNamed (e : ImportDeclarationInfo) (nis : List NamedImportInfo) :
    ImportDeclarationInfo :=
  nis.foldl addNamed e

/-- Merging one later contributor into the existing map entry
(lines 65-75). -/
def mergeInto (existing imp : ImportDeclarationInfo) :
    ImportDeclarationInfo :=
  if imp.isTypeOnly then
    addAllNamed (mergeNamespace (mergeDefault existing imp) imp)
      imp.namedImports
  else
    { addAllNamed (mergeNamespace (mergeDefault existing imp) imp)
        imp.namedImports with isTypeOnly := false }

/-- One iteration of the `imports.forEach` of `combineImports`. -/
def combineStep (m : List (String × ImportDeclarationInfo))
    (imp : ImportDeclarationInfo) : List (String × ImportDeclarationInfo) :=
  match m.lookup imp.moduleSpecifier with
  | none => assocSet m imp.moduleSpecifier imp
  | some existing => assocSet m imp.moduleSpecifier (mergeInto existing imp)

/-- `combineImports` (api-sdk.ts lines 55-79): fold all contributors and
return the map's values in insertion order. -/
def combineImports (imports : List ImportDeclarationInfo) :
    List ImportDeclarationInfo :=
  (imports.foldl combineStep []).map Prod.snd

theorem lookup_assocSet_self {α : Type} (m : List (String × α)) (k : String)
    (v : α) : (assocSet m k v).lookup k = some v := by
  induction m with
  | nil => simp [assocSet, List.lookup]
  | cons p rest ih =>
    obtain ⟨k0, v0⟩ := p
    by_cases h : k0 = k
    · simp [assocSet, if_pos h, List.lookup]
    · have hb : (k == k0) = false := beq_eq_false_iff_ne.mpr (Ne.symm h)
      simp [assocSet, if_neg h, List.lookup, hb, ih]

theorem lookup_assocSet_ne {α : Type} (m : List (String × α)) (k : String)
    (v : α) (k2 : String) (h : k2 ≠ k) :
    (assocSet m k v).lookup k2 = m.lookup k2 := by
  have hb : (k2 == k) = false := beq_eq_false_iff_ne.mpr h
  induction m with
  | nil => simp [assocSet, List.lookup, hb]
  | cons p rest ih =>
    obtain ⟨k0, v0⟩ := p
    by_cases h0 : k0 = k
    · subst h0
      simp [assocSet, List.lookup, hb]
    · by_cases h2 : k2 = k0
      · have hb2 : (k2 == k0) = true := beq_iff_eq.mpr h2
        simp [assocSet, if_neg h0, List.lookup, hb2]
      · have hb2 : (k2 == k0) = false := beq_eq_false_iff_ne.mpr h2
        simp [assocSet, if_neg h0, List.lookup, hb2, ih]

theorem lookup_eq_none_iff {α : Type} (m : List (String × α)) (k : String) :
    m.lookup k = none ↔ k ∉ m.map Prod.fst := by
  induction m with
  | nil => simp [List.lookup]
  | cons p rest ih =>
    obtain ⟨k0, v0⟩ := p
    by_cases h : k0 = k
    · subst h
      simp [List.lookup]
    · have hb : (k == k0) = false := beq_eq_false_iff_ne.mpr (Ne.symm h)
      simp [List.lookup, hb, ih, Ne.symm h]

theorem assocSet_keys_of_mem {α : Type} (m : List (String × α)) (k : String)
    (v : α) (h : k ∈ m.map Prod.fst) :
    (assocSet m k v).map Prod.fst = m.map Prod.fst := by
  induction m with
  | nil => simp at h
  | cons p rest ih =>
    obtain ⟨k0, v0⟩ := p
    by_cases h0 : k0 = k
    · simp [assocSet, if_pos h0, h0]
    · simp only [List.map_cons, List.mem_cons] at h
      rcases h with h | h

      · exact absurd h.symm h0
      · simp [assocSet, if_neg h0, ih h]

theorem assocSet_keys_of_not_mem {α : Type} (m : List (String × α))
    (k : String) (v : α) (h : k ∉ m.map Prod.fst) :
    (assocSet m k v).map Prod.fst = m.map Prod.fst ++ [k] := by
  induction m with
  | nil => simp [assocSet]
  | cons p rest ih =>
    obtain ⟨k0, v0⟩ := p
    simp only [List.map_cons, List.mem_cons] at h
    push_neg at h
    have hne : ¬ k0 = k := fun hh => h.1 hh.symm
    simp [assocSet, if_neg hne, ih h.2]

theorem mem_assocSet {α : Type} (m : List (String × α)) (k : String) (v : α)
    (p : String × α) (h : p ∈ assocSet m k v) : p = (k, v) ∨ p ∈ m := by
  induction m with
  | nil =>
    simp only [assocSet, List.mem_singleton] at h
    exact Or.inl h
  | cons q rest ih =>
    obtain ⟨k0, v0⟩ := q
    by_cases h0 : k0 = k
    · simp only [assocSet, if_pos h0, List.mem_cons] at h
      rcases h with h | h
      · exact Or.inl h
      · exact Or.inr (List.mem_cons_of_mem _ h)
    · simp only [assocSet, if_neg h0, List.mem_cons] at h
      rcases h with h | h
      · exact Or.inr (h ▸ List.mem_cons_self _ _)
      · rcases ih h with h2 | h2
        · exact Or.inl h2
        · exact Or.inr (List.mem_cons_of_mem _ h2)

theorem lookup_of_mem_nodup {α : Type} (m : List (String × α)) (k : String)
    (v : α) (hnd : (m.map Prod.fst).Nodup) (h : (k, v) ∈ m) :
    m.lookup k = some v := by
  induction m with
  | nil => simp at h
  | cons p rest ih =>
    obtain ⟨k0, v0⟩ := p
    simp only [List.map_cons, List.nodup_cons] at hnd
    rcases List.mem_cons.mp h with h | h
    · cases h
      simp [List.lookup]
    · have hne : k0 ≠ k := by
        intro hh
        exact hnd.1 (hh ▸ (List.mem_map.mpr ⟨(k, v), h, rfl⟩))
      have hb : (k == k0) = false := beq_eq_false_iff_ne.mpr (Ne.symm hne)
      simp [List.lookup, hb, ih hnd.2 h]

theorem addNamed_moduleSpecifier (e : ImportDeclarationInfo)
    (ni : NamedImportInfo) :
    (addNamed e ni).moduleSpecifier = e.moduleSpecifier := by
  unfold addNamed
  split_ifs <;> rfl

theorem addNamed_isTypeOnly (e : ImportDeclarationInfo)
    (ni : NamedImportInfo) : (addNamed e ni).isTypeOnly = e.isTypeOnly := by
  unfold addNamed
  split_ifs <;> rfl

theorem addAllNamed_moduleSpecifier (nis : List NamedImportInfo) :
    ∀ e, (addAllNamed e nis).moduleSpecifier = e.moduleSpecifier := by
  induction nis with
  | nil => intro e; rfl
  | cons ni rest ih =>
    intro e
    show (addAllNamed (addNamed e ni) rest).moduleSpecifier = _
    rw [ih, addNamed_moduleSpecifier]

theorem addAllNamed_isTypeOnly (nis : List NamedImportInfo) :
    ∀ e, (addAllNamed e nis).isTypeOnly = e.isTypeOnly := by
  induction nis with
  | nil => intro e; rfl
  | cons ni rest ih =>
    intro e
    show (addAllNamed (addNamed e ni) rest).isTypeOnly = _
    rw [ih, addNamed_isTypeOnly]

theorem addNamed_named_mono (e : ImportDeclarationInfo)
    (ni x : NamedImportInfo) (h : x ∈ e.namedImports) :
    x ∈ (addNamed e ni).namedImports := by
  unfold addNamed
  split_ifs
  · exact h
  · exact List.mem_append_left _ h

theorem addNamed_self_mem (e : ImportDeclarationInfo)
    (ni : NamedImportInfo) : ni ∈ (addNamed e ni).namedImports := by
  unfold addNamed
  split_ifs with hfound
  · obtain ⟨x, hx, hp⟩ := List.any_eq_true.mp hfound
    simp only [Bool.and_eq_true, decide_eq_true_eq] at hp
    have : x = ni := by
      obtain ⟨n, a⟩ := x
      obtain ⟨n2, a2⟩ := ni
      simp_all
    exact this ▸ hx
  · exact List.mem_append_right _ (List.mem_singleton.mpr rfl)

theorem addAllNamed_named_mono (nis : List NamedImportInfo) :
    ∀ e x, x ∈ e.namedImports → x ∈ (addAllNamed e nis).namedImports := by
  induction nis with
  | nil => intro e x h; exact h
  | cons ni rest ih =>
    intro e x h
    exact ih (addNamed e ni) x (addNamed_named_mono e ni x h)

theorem addAllNamed_mem_of_mem (nis : List NamedImportInfo) :
    ∀ e ni, ni ∈ nis → ni ∈ (addAllNamed e nis).namedImports := by
  induction nis with
  | nil => intro e ni h; simp at h
  | cons n rest ih =>
    intro e ni h
    rcases List.mem_cons.mp h with h | h
    · subst h
      exact addAllNamed_named_mono rest (addNamed e ni) ni
        (addNamed_self_mem e ni)
    · exact ih (addNamed e n) ni h

theorem mergeDefault_moduleSpecifier (e imp : ImportDeclarationInfo) :
    (mergeDefault e imp).moduleSpecifier = e.moduleSpecifier := by
  unfold mergeDefault
  split_ifs <;> rfl

theorem mergeDefault_isTypeOnly (e imp : ImportDeclarationInfo) :
    (mergeDefault e imp).isTypeOnly = e.isTypeOnly := by
  unfold mergeDefault
  split_ifs <;> rfl

theorem mergeDefault_named_mono (e imp : ImportDeclarationInfo)
    (x : NamedImportInfo) (h : x ∈ e.namedImports) :
    x ∈ (mergeDefault e imp).namedImports := by
  unfold mergeDefault
  split_ifs
  · exact h
  · exact List.mem_append_left _ h
  · exact h
  · exact h

theorem mergeNamespace_moduleSpecifier (e imp : ImportDeclarationInfo) :
    (mergeNamespace e imp).moduleSpecifier = e.moduleSpecifier := by
  unfold mergeNamespace
  split_ifs <;> rfl

theorem mergeNamespace_isTypeOnly (e imp : ImportDeclarationInfo) :
    (mergeNamespace e imp).isTypeOnly = e.isTypeOnly := by
  unfold mergeNamespace
  split_ifs <;> rfl

theorem mergeNamespace_namedImports (e imp : ImportDeclarationInfo) :
    (mergeNamespace e imp).namedImports = e.namedImports := by
  unfold mergeNamespace
  split_ifs <;> rfl

theorem mergeInto_moduleSpecifier (e imp : ImportDeclarationInfo) :
    (mergeInto e imp).moduleSpecifier = e.moduleSpecifier := by
  unfold mergeInto
  split_ifs
  · rw [addAllNamed_moduleSpecifier, mergeNamespace_moduleSpecifier,
      mergeDefault_moduleSpecifier]
  · show (addAllNamed _ _).moduleSpecifier = _
    rw [addAllNamed_moduleSpecifier, mergeNamespace_moduleSpecifier,
      mergeDefault_moduleSpecifier]

theorem mergeInto_isTypeOnly_false (e imp : ImportDeclarationInfo)
    (h : e.isTypeOnly = false) : (mergeInto e imp).isTypeOnly = false := by
  unfold mergeInto
  split_ifs
  · rw [addAllNamed_isTypeOnly, mergeNamespace_isTypeOnly,
      mergeDefault_isTypeOnly]
    exact h
  · rfl

theorem mergeInto_isTypeOnly_of_contrib (e imp : ImportDeclarationInfo)
    (h : imp.isTypeOnly = false) : (mergeInto e imp).isTypeOnly = false := by
  unfold mergeInto
  rw [if_neg (by simp [h])]

theorem mergeInto_named_mono (e imp : ImportDeclarationInfo)
    (x : NamedImportInfo) (h : x ∈ e.namedImports) :
    x ∈ (mergeInto e imp).namedImports := by
  have hcore : x ∈ (addAllNamed
      (mergeNamespace (mergeDefault e imp) imp) imp.namedImports).namedImports := by
    apply addAllNamed_named_mono
    rw [mergeNamespace_namedImports]
    exact mergeDefault_named_mono e imp x h
  unfold mergeInto
  split_ifs
  · exact hcore
  · exact hcore

theorem mergeInto_named_of_contrib (e imp : ImportDeclarationInfo)
    (ni : NamedImportInfo) (h : ni ∈ imp.namedImports) :
    ni ∈ (mergeInto e imp).namedImports := by
  have hcore : ni ∈ (addAllNamed
      (mergeNamespace (mergeDefault e imp) imp) imp.namedImports).namedImports :=
    addAllNamed_mem_of_mem _ _ ni h
  unfold mergeInto
  split_ifs
  · exact hcore
  · exact hcore

theorem mem_of_lookup {α : Type} (m : List (String × α)) (k : String)
    (v : α) (h : m.lookup k = some v) : (k, v) ∈ m := by
  induction m with
  | nil => simp [List.lookup] at h
  | cons p rest ih =>
    obtain ⟨k0, v0⟩ := p
    by_cases h0 : k = k0
    · subst h0
      simp only [List.lookup, beq_self_eq_true] at h
      cases h
      exact List.mem_cons_self _ _
    · have hb : (k == k0) = false := beq_eq_false_iff_ne.mpr h0
      simp only [List.lookup, hb] at h
      exact List.mem_cons_of_mem _ (ih h)

/-- The shape `combineImports`'s map keeps: keys are pairwise distinct and
each value's `moduleSpecifier` is its key. -/
def goodImportMap (m : List (String × ImportDeclarationInfo)) : Prop :=
  (m.map Prod.fst).Nodup ∧ ∀ p ∈ m, (p.2).moduleSpecifier = p.1

theorem goodImportMap_combineStep (m : List (String × ImportDeclarationInfo))
    (imp : ImportDeclarationInfo) (h : goodImportMap m) :
    goodImportMap (combineStep m imp) := by
  unfold combineStep
  cases hl : m.lookup imp.moduleSpecifier with
  | none =>
    have hk : imp.moduleSpecifier ∉ m.map Prod.fst :=
      (lookup_eq_none_iff m _).mp hl
    constructor
    · rw [assocSet_keys_of_not_mem m _ _ hk]
      simp [List.nodup_append, h.1, hk]
    · intro p hp
      rcases mem_assocSet m _ _ p hp with hp2 | hp2
      · subst hp2; rfl
      · exact h.2 p hp2
  | some existing =>
    have hmem : (imp.moduleSpecifier, existing) ∈ m := mem_of_lookup m _ _ hl
    have hk : imp.moduleSpecifier ∈ m.map Prod.fst :=
      List.mem_map.mpr ⟨(imp.moduleSpecifier, existing), hmem, rfl⟩
    constructor
    · rw [assocSet_keys_of_mem m _ _ hk]
      exact h.1
    · intro p hp
      rcases mem_assocSet m _ _ p hp with hp2 | hp2
      · subst hp2
        show (mergeInto existing imp).moduleSpecifier = _
        rw [mergeInto_moduleSpecifier]
        exact h.2 _ hmem
      · exact h.2 p hp2

theorem goodImportMap_fold (imports : List ImportDeclarationInfo) :
    ∀ m, goodImportMap m →
      goodImportMap (imports.foldl combineStep m) := by
  induction imports with
  | nil => intro m h; exact h
  | cons imp rest ih =>
    intro m h
    exact ih (combineStep m imp) (goodImportMap_combineStep m imp h)

theorem typeOnly_step (m : List (String × ImportDeclarationInfo))
    (imp : ImportDeclarationInfo) (k : String)
    (h : ∃ v, m.lookup k = some v ∧ v.isTypeOnly = false) :
    ∃ v, (combineStep m imp).lookup k = some v ∧ v.isTypeOnly = false := by
  obtain ⟨v, hl, hv⟩ := h
  unfold combineStep
  by_cases hk : imp.moduleSpecifier = k
  · subst hk
    rw [hl]
    exact ⟨mergeInto v imp, lookup_assocSet_self m _ _,
      mergeInto_isTypeOnly_false v imp hv⟩
  · cases hl2 : m.lookup imp.moduleSpecifier with
    | none =>
      exact ⟨v, by rw [lookup_assocSet_ne m _ _ k (Ne.symm hk)]; exact hl, hv⟩
    | some existing =>
      exact ⟨v, by rw [lookup_assocSet_ne m _ _ k (Ne.symm hk)]; exact hl, hv⟩

theorem typeOnly_emerge (m : List (String × ImportDeclarationInfo))
    (imp : ImportDeclarationInfo) (h : imp.isTypeOnly = false) :
    ∃ v, (combineStep m imp).lookup imp.moduleSpecifier = some v ∧
      v.isTypeOnly = false := by
  unfold combineStep
  cases hl : m.lookup imp.moduleSpecifier with
  | none => exact ⟨imp, lookup_assocSet_self m _ _, h⟩
  | some existing =>
    exact ⟨mergeInto existing imp, lookup_assocSet_self m _ _,
      mergeInto_isTypeOnly_of_contrib existing imp h⟩

theorem typeOnly_fold (imports : List ImportDeclarationInfo) :
    ∀ m k, (∃ v, m.lookup k = some v ∧ v.isTypeOnly = false) →
      ∃ v, (imports.foldl combineStep m).lookup k = some v ∧
        v.isTypeOnly = false := by
  induction imports with
  | nil => intro m k h; exact h
  | cons imp rest ih =>
    intro m k h
    exact ih (combineStep m imp) k (typeOnly_step m imp k h)

theorem typeOnly_mem_fold (imports : List ImportDeclarationInfo) :
    ∀ m imp, imp ∈ imports → imp.isTypeOnly = false →
      ∃ v, (imports.foldl combineStep m).lookup imp.moduleSpecifier = some v ∧
        v.isTypeOnly = false := by
  induction imports with
  | nil => intro m imp h; exact absurd h (List.not_mem_nil imp)
  | cons d rest ih =>
    intro m imp hmem hto
    rcases List.mem_cons.mp hmem with h | h
    · subst h
      exact typeOnly_fold rest (combineStep m imp) _
        (typeOnly_emerge m imp hto)
    · exact ih (combineStep m d) imp h hto

theorem named_step (m : List (String × ImportDeclarationInfo))
    (imp : ImportDeclarationInfo) (k : String) (ni : NamedImportInfo)
    (h : ∃ v, m.lookup k = some v ∧ ni ∈ v.namedImports) :
    ∃ v, (combineStep m imp).lookup k = some v ∧ ni ∈ v.namedImports := by
  obtain ⟨v, hl, hv⟩ := h
  unfold combineStep
  by_cases hk : imp.moduleSpecifier = k
  · subst hk
    rw [hl]
    exact ⟨mergeInto v imp, lookup_assocSet_self m _ _,
      mergeInto_named_mono v imp ni hv⟩
  · cases hl2 : m.lookup imp.moduleSpecifier with
    | none =>
      exact ⟨v, by rw [lookup_assocSet_ne m _ _ k (Ne.symm hk)]; exact hl, hv⟩
    | some existing =>
      exact ⟨v, by rw [lookup_assocSet_ne m _ _ k (Ne.symm hk)]; exact hl, hv⟩

theorem named_emerge (m : List (String × ImportDeclarationInfo))
    (imp : ImportDeclarationInfo) (ni : NamedImportInfo)
    (h : ni ∈ imp.namedImports) :
    ∃ v, (combineStep m imp).lookup imp.moduleSpecifier = some v ∧
      ni ∈ v.namedImports := by
  unfold combineStep
  cases hl : m.lookup imp.moduleSpecifier with
  | none => exact ⟨imp, lookup_assocSet_self m _ _, h⟩
  | some existing =>
    exact ⟨mergeInto existing imp, lookup_assocSet_self m _ _,
      mergeInto_named_of_contrib existing imp ni h⟩

theorem named_fold (imports : List ImportDeclarationInfo) :
    ∀ m k ni, (∃ v, m.lookup k = some v ∧ ni ∈ v.namedImports) →
      ∃ v, (imports.foldl combineStep m).lookup k = some v ∧
        ni ∈ v.namedImports := by
  induction imports with
  | nil => intro m k ni h; exact h
  | cons imp rest ih =>
    intro m k ni h
    exact ih (combineStep m imp) k ni (named_step m imp k ni h)

theorem named_mem_fold (imports : List ImportDeclarationInfo) :
    ∀ m imp ni, imp ∈ imports → ni ∈ imp.namedImports →
      ∃ v, (imports.foldl combineStep m).lookup imp.moduleSpecifier = some v ∧
        ni ∈ v.namedImports := by
  induction imports with
  | nil => intro m imp ni h; exact absurd h (List.not_mem_nil imp)
  | cons d rest ih =>
    intro m imp ni hmem hni
    rcases List.mem_cons.mp hmem with h | h
    · subst h
      exact named_fold rest (combineStep m imp) _ ni (named_emerge m imp ni hni)
    · exact ih (combineStep m d) imp ni h hni

/-- Claim C8, amended: after `combineImports`, module specifiers are
pairwise distinct (at most one entry per module); a non-type-only
contributor forces its module's entry non-type-only; and every
contributor's named import is present in its module's entry.  (The claim's
"duplicate-free union" reading is refuted separately: entries can also
hold synthesized, possibly repeated `d as d_` aliases for conflicting
default imports.) -/
theorem claim_C8 (imports : List ImportDeclarationInfo) :
    ((combineImports imports).map (fun e => e.moduleSpecifier)).Nodup ∧
    (∀ imp ∈ imports, imp.isTypeOnly = false →
      ∀ e ∈ combineImports imports,
        e.moduleSpecifier = imp.moduleSpecifier → e.isTypeOnly = false) ∧
    (∀ imp ∈ imports, ∀ ni ∈ imp.namedImports,
      ∃ e ∈ combineImports imports,
        e.moduleSpecifier = imp.moduleSpecifier ∧ ni ∈ e.namedImports) := by
  have hgood : goodImportMap (imports.foldl combineStep []) :=
    goodImportMap_fold imports [] ⟨List.nodup_nil, by simp⟩
  refine ⟨?_, ?_, ?_⟩
  · have h1 : (combineImports imports).map (fun e => e.moduleSpecifier)
        = (imports.foldl combineStep []).map Prod.fst := by
      unfold combineImports
      rw [List.map_map]
      exact List.map_congr_left (fun p hp => hgood.2 p hp)
    rw [h1]
    exact hgood.1
  · intro imp hmem hto e hemem hspec
    obtain ⟨v, hl, hv⟩ := typeOnly_mem_fold imports [] imp hmem hto
    obtain ⟨⟨k2, e2⟩, hpe, hee⟩ := List.mem_map.mp hemem
    subst hee
    have hk2 : e2.moduleSpecifier = k2 := hgood.2 _ hpe
    have hle : (imports.foldl combineStep []).lookup imp.moduleSpecifier
        = some e2 := by
      rw [← hspec, hk2]
      exact lookup_of_mem_nodup _ _ _ hgood.1 hpe
    rw [hle] at hl
    cases hl
    exact hv
  · intro imp hmem ni hni
    obtain ⟨v, hl, hv⟩ := named_mem_fold imports [] imp ni hmem hni
    refine ⟨v, List.mem_map.mpr ⟨(imp.moduleSpecifier, v),
      mem_of_lookup _ _ _ hl, rfl⟩, ?_, hv⟩
    exact hgood.2 _ (mem_of_lookup _ _ _ hl)

/-- Counterexample to C8's "duplicate-free union of contributors' named
imports": three default imports `a`, `b`, `b` of one module leave an
entry whose named imports are the synthesized `b as b_` twice — repeated,
and present in no contributor. -/
theorem claim_C8_counterexample :
    (combineImports
      [⟨"m", some "a", none, [], true⟩,
        ⟨"m", some "b", none, [], true⟩,
        ⟨"m", some "b", none, [], true⟩]).map (fun e => e.namedImports) =
      [[⟨"b", some "b_"⟩, ⟨"b", some "b_"⟩]] ∧
    ¬ (∀ e ∈ combineImports
        [⟨"m", some "a", none, [], true⟩,
          ⟨"m", some "b", none, [], true⟩,
          ⟨"m", some "b", none, [], true⟩],
        e.namedImports.Nodup) ∧
    ¬ (∀ e ∈ combineImports
        [⟨"m", some "a", none, [], true⟩,
          ⟨"m", some "b", none, [], true⟩,
          ⟨"m", some "b", none, [], true⟩],
        ∀ ni ∈ e.namedImports,
        ∃ src ∈ ([⟨"m", some "a", none, [], true⟩,
          ⟨"m", some "b", none, [], true⟩,
          ⟨"m", some "b", none, [], true⟩] :
            List ImportDeclarationInfo),
          ni ∈ src.namedImports) := by
  refine ⟨rfl, by decide, by decide⟩

/-- Witness for C8 at a concrete input: two contributors to module `m`,
one non-type-only with named import `a`, one type-only with named import
`b`: the combined list has distinct specifiers and `b` lands in the `m`
entry. -/
theorem claim_C8_witness :
    ((combineImports
      [⟨"m", none, none, [⟨"a", none⟩], false⟩,
        ⟨"m", none, none, [⟨"b", none⟩], true⟩]).map
      (fun e => e.moduleSpecifier)).Nodup ∧
    (∃ e ∈ combineImports
      [⟨"m", none, none, [⟨"a", none⟩], false⟩,
        ⟨"m", none, none, [⟨"b", none⟩], true⟩],
      e.moduleSpecifier = "m" ∧ (⟨"b", none⟩ : NamedImportInfo) ∈
        e.namedImports) := by
  constructor
  · exact (claim_C8 _).1
  · exact (claim_C8 _).2.2 (⟨"m", none, none, [⟨"b", none⟩], true⟩)
      (by decide) ⟨"b", none⟩ (by decide)

/-! ### Claim C9: incremental updates with an unlocatable ancestor

`handleFileEvent` (api-sdk.ts lines 328-376) maps the changed file's
relative directory path to segments (dropping empty and parenthesized
route-group segments), walks the live tree along all segments but the
last — keying each step by the bracket-stripped segment — and on a missing
child warns and returns before touching the tree or calling `writeSdks`.
The file-system and ts-morph effects are modeled away; the freshly parsed
directory node and full-reparse tree are inputs. -/

/-- The outcome of one file event: the live tree afterwards, whether the
SDK artifacts were regenerated (`writeSdks` reached), and whether the
navigation-failure warning was printed. -/
structure FileEventResult where
  tree : RouteNode
  regenerated : Bool
  warned : Bool

/-- `relPath.split(path.sep).filter(seg => seg && !(seg.startsWith('(') &&
seg.endsWith(')')))` (line 340). -/
def segmentsOf (relPathSegs : List String) : List String :=
  relPathSegs.filter
    (fun seg => seg ≠ "" && !(jsStartsWith seg "(" && jsEndsWith seg ")"))

/-- `delete parentNode.children[key]` (line 367). -/
def childDelete (cs : List (String × RouteNode)) (k : String) :
    List (String × RouteNode) :=
  cs.filter (fun p => p.1 ≠ k)

/-- The navigation-and-update loop (lines 344-371): walk the children
along all segments but the last, keying by the bracket-stripped segment
(the inline key computation is `stripKey`); `none` exactly when an
ancestor child is missing, in which case the source warns and returns.
At the last segment an `unlink` deletes the child, any other event
assigns the freshly parsed node. -/
def updateTree (node : RouteNode) (segs : List String) (event : String)
    (newNode : RouteNode) : Option RouteNode :=
  match segs with
  | [] => none
  | [last] =>
    let key := stripKey last
    if event = "unlink" then
      some (.mk node.segment node.methods (childDelete node.children key)
        node.imports)
    else
      some (.mk node.segment node.methods (childInsert node.children key newNode)
        node.imports)
  | seg :: rest =>
    match node.children.lookup (stripKey seg) with
    | none => none
    | some child =>
      match updateTree child rest event newNode with
      | none => none
      | some child2 =>
        some (.mk node.segment node.methods
          (childInsert node.children (stripKey seg) child2) node.imports)

/-- `handleFileEvent` (lines 328-376) on the live tree: no segments left
means a full reparse; otherwise the subtree update, whose failure leaves
the tree untouched, prints the warning and skips `writeSdks`. -/
def handleFileEvent (tree : RouteNode) (event : String)
    (relPathSegs : List String) (reparsedDir reparsedRoot : RouteNode) :
    FileEventResult :=
  let segs := segmentsOf relPathSegs
  if segs.isEmpty then ⟨reparsedRoot, true, false⟩
  else
    match updateTree tree segs event reparsedDir with
    | none => ⟨tree, false, true⟩
    | some t2 => ⟨t2, true, false⟩

/-- Claim C9: when the ancestor walk cannot locate a segment
(`updateTree` is `none`, which by construction happens exactly on a
missing ancestor child), the coordinator warns, drops the update, keeps
the live tree unchanged and does not regenerate the artifacts. -/
theorem claim_C9 (tree : RouteNode) (event : String)
    (relPathSegs : List String) (reparsedDir reparsedRoot : RouteNode)
    (hne : (segmentsOf relPathSegs).isEmpty = false)
    (hfail : updateTree tree (segmentsOf relPathSegs) event reparsedDir
      = none) :
    handleFileEvent tree event relPathSegs reparsedDir reparsedRoot =
      ⟨tree, false, true⟩ := by
  unfold handleFileEvent
  rw [if_neg (by simp [hne]), hfail]

/-- Witness for C9: a live tree holding only a `users` child receives an
event under `posts/[postId]`; the ancestor `posts` is missing, so the
tree survives unchanged, nothing is regenerated, and the warning fires. -/
theorem claim_C9_witness :
    handleFileEvent
      (.mk "app" [] [("users", .mk "users" [] [] [])] [])
      "change" ["posts", "[postId]"]
      (.mk "[postId]" [] [] []) (.mk "app" [] [] []) =
      ⟨.mk "app" [] [("users", .mk "users" [] [] [])] [], false, true⟩ :=
  claim_C9 (.mk "app" [] [("users", .mk "users" [] [] [])] [])
    "change" ["posts", "[postId]"]
    (.mk "[postId]" [] [] []) (.mk "app" [] [] []) rfl rfl

/-! ### Claims C6 and C7: the two-artifact generation pipeline

`writeSdks` (api-sdk.ts lines 298-323) collects the tree's import
declarations, combines and dealiases them, and emits the client and
server artifacts.  In JavaScript the tree's `NamedImportInfo` objects are
shared by reference into the combined entries (`combineImports` copies
each first contributor's record and array but not the elements, and
pushes later contributors' elements), and `applyImportAliases` assigns
`ni.alias` on those shared objects — mutating the route tree itself.  To
capture this the named-import objects live in an explicit store
(addresses are indices), the tree and the combined entries hold
addresses, and every mutation is a store update.  Entry records
themselves are shared between `combinedImports`, `clientImports` and
`serverImports` (the spreads copy the arrays, not the entries); the
client and server passes therefore operate on entry indices with
write-back.  `Promise.all` interleaves nothing here: `generateClientSdk`
runs synchronously up to its first `await` — past all its aliasing —
before `generateServerSdk` starts, so the passes run in client-then-
server order.  The external formatter is modeled as the identity. -/

/-- The heap of named-import objects; an address is an index. -/
abbrev Store : Type := List NamedImportInfo

/-- Reading an address (a dangling address reads a dummy, as JS yields
`undefined`). -/
def storeGet (st : Store) (a : Nat) : NamedImportInfo :=
  List.getD st a ⟨"", none⟩

/-- `ni.alias = ...`: overwrite the object at an address. -/
def storeSet (st : Store) (a : Nat) (v : NamedImportInfo) : Store :=
  List.set st a v

/-- Store length, named to avoid unfolding `Store`. -/
def storeLen (st : Store) : Nat := List.length st

/-- An import declaration as the tree and the combined entries hold it:
named imports are addresses into the store. -/
structure ImportDeclRef where
  moduleSpecifier : String
  defaultImport : Option String
  namespaceImport : Option String
  namedAddrs : List Nat
  isTypeOnly : Bool
deriving DecidableEq, Repr

/-- The route tree as the generator holds it at runtime: like
`RouteNode`, with named imports by reference. -/
inductive RouteNodeR where
  | mk (segment : String) (methods : List MethodInfo)
      (children : List (String × RouteNodeR)) (imports : List ImportDeclRef)

def RouteNodeR.segment : RouteNodeR → String
  | .mk s _ _ _ => s

def RouteNodeR.methods : RouteNodeR → List MethodInfo
  | .mk _ m _ _ => m

def RouteNodeR.children : RouteNodeR → List (String × RouteNodeR)
  | .mk _ _ c _ => c

def RouteNodeR.imports : RouteNodeR → List ImportDeclRef
  | .mk _ _ _ i => i

/-- The value an import declaration denotes: addresses dereferenced. -/
def derefImport (st : Store) (r : ImportDeclRef) : ImportDeclarationInfo :=
  ⟨r.moduleSpecifier, r.defaultImport, r.namespaceImport,
    r.namedAddrs.map (storeGet st), r.isTypeOnly⟩

mutual

/-- The value tree a reference tree denotes under a store. -/
def derefTree (st : Store) : RouteNodeR → RouteNode
  | .mk seg ms cs imps =>
    .mk seg ms (derefChildren st cs) (imps.map (derefImport st))

def derefChildren (st : Store) :
    List (String × RouteNodeR) → List (String × RouteNode)
  | [] => []
  | (k, c) :: rest => (k, derefTree st c) :: derefChildren st rest

end

mutual

/-- `collectRouteImports` (api-sdk.ts lines 40-48) on the live tree:
the node's own imports, then each child's, in child order. -/
def collectRouteImports : RouteNodeR → List ImportDeclRef
  | .mk _ _ cs imps => imps ++ collectChildImports cs

def collectChildImports : List (String × RouteNodeR) → List ImportDeclRef
  | [] => []
  | (_, c) :: rest => collectRouteImports c ++ collectChildImports rest

end

mutual

/-- `collectRouteImports` read on the dereferenced value tree (used to
observe whether generation changed the tree). -/
def collectImportsView : RouteNode → List ImportDeclarationInfo
  | .mk _ _ cs imps => imps ++ collectChildImportsView cs

def collectChildImportsView :
    List (String × RouteNode) → List ImportDeclarationInfo
  | [] => []
  | (_, c) :: rest => collectImportsView c ++ collectChildImportsView rest

end

/-- The named-import merge loop of `combineImports` (lines 70-74) on
addresses: push the address unless an entry with the same dereferenced
name and alias is already present.  The store is only read here. -/
def combineNamedLoop (st : Store) (existingAddrs : List Nat) :
    List Nat → List Nat
  | [] => existingAddrs
  | a :: rest =>
    let ni := storeGet st a
    if existingAddrs.any (fun e => (storeGet st e).name = ni.name &&
        (storeGet st e).aliasName = ni.aliasName) then
      combineNamedLoop st existingAddrs rest
    else
      combineNamedLoop st (existingAddrs ++ [a]) rest

/-- The default-import merge step of `combineImports` (lines 65-68) on
references: a conflicting default is recorded as a freshly allocated
synthesized named import `\x7b name: d, alias: d + '_' \x7d`. -/
def mergeDefaultR (st : Store) (existing imp : ImportDeclRef) :
    ImportDeclRef × Store :=
  if strPresent imp.defaultImport then
    if !(strPresent existing.defaultImport) then
      ({ existing with defaultImport := imp.defaultImport }, st)
    else if existing.defaultImport ≠ imp.defaultImport then
      let d := imp.defaultImport.getD ""
      ({ existing with namedAddrs := existing.namedAddrs ++ [storeLen st] },
        st ++ [⟨d, some (d ++ "_")⟩])
    else (existing, st)
  else (existing, st)

/-- Merging one later contributor into the existing entry
(lines 65-75). -/
def mergeIntoR (st : Store) (existing imp : ImportDeclRef) :
    ImportDeclRef × Store :=
  let p := mergeDefaultR st existing imp
  let e2 :=
    if strPresent imp.namespaceImport && !(strPresent p.1.namespaceImport)
    then { p.1 with namespaceImport := imp.namespaceImport }
    else p.1
  let addrs3 := combineNamedLoop p.2 e2.namedAddrs imp.namedAddrs
  let e3 := { e2 with namedAddrs := addrs3 }
  (if !imp.isTypeOnly then { e3 with isTypeOnly := false } else e3, p.2)

/-- One iteration of `combineImports`' `forEach` (lines 59-77).  The
first contributor for a module is entered as `\x7b ...imp,
namedImports: [...imp.namedImports] \x7d`: a copy of the record and the
array, whose elements (here: addresses) stay shared. -/
def combineStepR (st : Store) (m : List (String × ImportDeclRef))
    (imp : ImportDeclRef) : List (String × ImportDeclRef) × Store :=
  match m.lookup imp.moduleSpecifier with
  | none => (assocSet m imp.moduleSpecifier imp, st)
  | some existing =>
    let p := mergeIntoR st existing imp
    (assocSet m imp.moduleSpecifier p.1, p.2)

/-- `combineImports` (lines 55-79) over the store. -/
def combineImportsR (st : Store) (imports : List ImportDeclRef) :
    List ImportDeclRef × Store :=
  let p := imports.foldl
    (fun acc imp => combineStepR acc.2 acc.1 imp)
    (([] : List (String × ImportDeclRef)), st)
  (p.1.map Prod.snd, p.2)

/-- `countImportIdentifiers` (lines 106-119) over the store. -/
def countImportIdentifiersR (st : Store) (imports : List ImportDeclRef) :
    List (String × Nat) :=
  imports.foldl (fun m imp =>
    let m1 := match imp.defaultImport with
      | some d => if d = "" then m else mapBump m d
      | none => m
    let m2 := match imp.namespaceImport with
      | some ns => if ns = "" then m1 else mapBump m1 ns
      | none => m1
    imp.namedAddrs.foldl (fun acc a =>
      let ni := storeGet st a
      mapBump acc (orName ni.aliasName ni.name)) m2) []

/-- The named-import loop of `applyImportAliases` (lines 150-157):
`ni.alias = ...` writes through the shared reference, i.e. into the
store. -/
def aliasNamedLoop (nameCount : List (String × Nat)) :
    List (String × Nat) → Store → List Nat → List (String × Nat) × Store
  | used, st, [] => (used, st)
  | used, st, a :: rest =>
    let ni := storeGet st a
    let importName := orName ni.aliasName ni.name
    let cnt := mapGetN nameCount importName
    if cnt > 1 then
      let occ := mapGetN used importName
      let ni2 := { ni with aliasName := some (ni.name ++ "_" ++ toString occ) }
      let st2 := if occ > 0 then storeSet st a ni2 else st
      aliasNamedLoop nameCount (mapSet used importName (occ + 1)) st2 rest
    else aliasNamedLoop nameCount used st rest

/-- The default/namespace branch of `applyImportAliases` (lines 134-148)
on an optional truthy field: the possibly suffixed field and the updated
`used` map. -/
def aliasOptField (nameCount used : List (String × Nat)) :
    Option String → Option String × List (String × Nat)
  | some d =>
    if d = "" then (some d, used)
    else ((some (aliasDefault used nameCount d).1),
      (aliasDefault used nameCount d).2)
  | none => (none, used)

/-- The entry loop of `applyImportAliases` (lines 130-158): default and
namespace reassignments land on the entry record, named-import
reassignments land in the store. -/
def aliasEntryLoop (nameCount : List (String × Nat)) :
    List (String × Nat) → Store → List ImportDeclRef →
      List ImportDeclRef × Store
  | _, st, [] => ([], st)
  | used, st, imp :: rest =>
    let p1 := aliasOptField nameCount used imp.defaultImport
    let p2 := aliasOptField nameCount p1.2 imp.namespaceImport
    let p3 := aliasNamedLoop nameCount p2.2 st imp.namedAddrs
    let p4 := aliasEntryLoop nameCount p3.1 p3.2 rest
    ({ imp with
        defaultImport := p1.1
        namespaceImport := p2.1 } :: p4.1, p4.2)

/-- `aliasConflictingImports` (lines 164-167) over the store. -/
def aliasConflictingImportsR (st : Store) (imports : List ImportDeclRef) :
    List ImportDeclRef × Store :=
  aliasEntryLoop (countImportIdentifiersR st imports) [] st imports

/-- The keep-predicate of `filterUnusedImports` (api-sdk.ts
lines 170-187); note `ni.alias ?? ni.name` is nullish coalescing, so an
empty-string alias is used as-is. -/
def importUsed (st : Store) (imp : ImportDeclRef)
    (codeStrings : List String) : Bool :=
  let importedNames :=
    (match imp.defaultImport with
      | some d => if d = "" then [] else [d]
      | none => []) ++
    (match imp.namespaceImport with
      | some ns => if ns = "" then [] else [ns ++ "."]
      | none => []) ++
    imp.namedAddrs.map (fun a =>
      let ni := storeGet st a
      ni.aliasName.getD ni.name)
  importedNames.any (fun name =>
    codeStrings.any (fun code => jsIncludes code.data name.data))

/-- The non-namespace arm of `formatImport`. -/
def formatImportParts (st : Store) (imp : ImportDeclRef)
    (typeOnly : String) : String :=
  let parts :=
    (match imp.defaultImport with
      | some d => if d = "" then [] else [d]
      | none => []) ++
    (if imp.namedAddrs.isEmpty then []
      else
        let named := String.intercalate ", " (imp.namedAddrs.map (fun a =>
          let n := storeGet st a
          if strPresent n.aliasName then
            n.name ++ " as " ++ (n.aliasName.getD "")
          else n.name))
        ["\x7b " ++ named ++ " \x7d"])
  "import " ++ typeOnly ++ String.intercalate ", " parts ++ " from '" ++
    imp.moduleSpecifier ++ "';"

/-- `formatImport` (api-sdk.ts lines 86-99) read through the store. -/
def formatImport (st : Store) (imp : ImportDeclRef) : String :=
  let typeOnly := if imp.isTypeOnly then "type " else ""
  match imp.namespaceImport with
  | some ns =>
    if ns = "" then formatImportParts st imp typeOnly
    else "import " ++ typeOnly ++ "* as " ++ ns ++ " from '" ++
      imp.moduleSpecifier ++ "';"
  | none => formatImportParts st imp typeOnly

/-! #### The client emitter (client-code-builder) -/

/-- JavaScript `String.prototype.toUpperCase` (ASCII range, which covers
every route key this repository uses). -/
def jsToUpper (s : String) : String :=
  String.mk (s.toList.map Char.toUpper)

/-- A string split at newlines, as `code.split('\n')`. -/
def jsLinesStr (s : String) : List String :=
  (jsLines s.data).map String.mk

/-- `p.replace('?', '')`: remove the first question mark. -/
def removeFirstQ : List Char → List Char
  | [] => []
  | c :: rest => if c = '?' then rest else c :: removeFirstQ rest

/-- `p.split(':')[0].replace('?','').trim()` of the option-prop lists in
both emitters. -/
def firstField (p : String) : String :=
  String.mk (jsTrim (removeFirstQ (p.data.takeWhile (fun c => c ≠ ':'))))

/-- The lazy capture `(.*?)\1` (plus `\)` when `needParen`) of the
redirect-URL regexes: the shortest run up to the next closing quote
(followed by a close paren when required); `.` does not cross newlines. -/
def captureUntil (q : Char) (needParen : Bool) :
    Nat → List Char → List Char → Option String
  | 0, _, _ => none
  | _, [], _ => none
  | fuel + 1, c :: rest, acc =>
    if c = q && (!needParen ||
        (match rest with | ')' :: _ => true | _ => false)) then
      some (String.mk acc.reverse)
    else if c = '\n' then none
    else captureUntil q needParen fuel rest (c :: acc)

/-- `/NextResponse\.redirect\(\s*(['"])(.*?)\1\)?/.exec`: scan for the
first position where the pattern matches and return its URL capture.
The client regex requires the closing paren after the quote, the server
one does not. -/
def redirectScanL (needParen : Bool) : Nat → List Char → Option String
  | 0, _ => none
  | _, [] => none
  | fuel + 1, c :: rest =>
    if "NextResponse.redirect(".toList.isPrefixOf (c :: rest) then
      let r1 := (c :: rest).drop 22
      let r2 := r1.dropWhile isJsSpace
      match r2 with
      | q :: r3 =>
        if q = chQuote || q = '"' then
          match captureUntil q needParen (r3.length + 1) r3 [] with
          | some u => some u
          | none => redirectScanL needParen fuel rest
        else redirectScanL needParen fuel rest
      | [] => redirectScanL needParen fuel rest
    else redirectScanL needParen fuel rest

/-- The matched redirect URL, or the empty string. -/
def findRedirectUrl (needParen : Bool) (s : String) : String :=
  (redirectScanL needParen (s.data.length + 1) s.data).getD ""

/-- `buildPathLiteral` (client-code-builder lines 8-26). -/
def buildPathLiteral (segments : List String) : String :=
  let mapped := segments.map (fun seg =>
    if jsStartsWith seg "(" && jsEndsWith seg ")" then ""
    else if jsStartsWith seg "[..." && jsEndsWith seg "]" then
      "$\x7b" ++ jsSliceNeg seg 4 ++ ".join(\"/\")\x7d"
    else if jsStartsWith seg "[" && jsEndsWith seg "]" then
      "$\x7b" ++ jsSliceNeg seg 1 ++ "\x7d"
    else seg)
  let lit := String.intercalate "/" (mapped.filter (fun s => s ≠ ""))
  "\x60/" ++ lit ++ "\x60"

/-- The `usesBody` test shared by both emitters (client lines 39-43,
server lines 17-21). -/
def usesBodyOf (mi : MethodInfo) : Bool :=
  !(mi.name = "GET") && (mi.inputType ≠ "unknown" ||
    strPresent mi.bodyVariableName ||
    (mi.bodyParams.getD []).length > 0)

/-- `buildMethodCode` (client-code-builder lines 33-125). -/
def buildMethodCode (mi : MethodInfo) (pathLit : String) : String :=
  let methodName := mi.name
  let dataType := mi.returnType
  let isGet := methodName = "GET"
  let inputType := mi.inputType
  let usesBody := usesBodyOf mi
  let optionProps :=
    (if usesBody then ["body: " ++ inputType] else []) ++
    ["searchParams?: Record<string, string>"]
  let optionsType := "\x7b " ++ String.intercalate "; " optionProps ++ " \x7d"
  let propNames := optionProps.map firstField
  let destructParams := String.intercalate ", " propNames
  let paramsSignature :=
    if usesBody then
      "(\x7b " ++ destructParams ++ " \x7d: " ++ optionsType ++ ")"
    else
      "(\x7b " ++ destructParams ++ " \x7d: " ++ optionsType ++ " = \x7b\x7d)"
  let hc := mi.handlerCode.getD ""
  if hc ≠ "" && jsIncludes hc.data "NextResponse.redirect".data then
    let redirectUrl := findRedirectUrl true hc
    methodName ++ ": " ++ paramsSignature ++ ": void => \x7b" ++
      "\n  const url = '" ++ redirectUrl ++
      "' + (searchParams ? '?' + new URLSearchParams(searchParams) : '');" ++
      "\n  window.location.assign(url);" ++
      "\n\x7d,"
  else if jsStartsWith dataType "ReadableStream" then
    if isGet then
      methodName ++ ": " ++ paramsSignature ++ " => " ++
        "tryCatchFunction(async () => \x7b" ++
        "\n      const res = await fetch(" ++ pathLit ++
        " + (searchParams ? '?' + new URLSearchParams(searchParams) : ''));" ++
        "\n      const reader = res.body!.getReader();" ++
        "\n      const decoder = new TextDecoder();" ++
        "\n      return \x7b reader, decoder \x7d;" ++
        "\n  \x7d),"
    else if !usesBody then
      methodName ++ ": " ++ paramsSignature ++ " => " ++
        "tryCatchFunction(async () => \x7b" ++
        "\n      const res = await fetch(" ++ pathLit ++
        " + (searchParams ? '?' + new URLSearchParams(searchParams) : '')," ++
        " \x7b method: '" ++ methodName ++ "' \x7d);" ++
        "\n      const reader = res.body!.getReader();" ++
        "\n      const decoder = new TextDecoder();" ++
        "\n      return \x7b reader, decoder \x7d;" ++
        "\n  \x7d),"
    else
      methodName ++ ": " ++ paramsSignature ++ " => " ++
        "tryCatchFunction(async () => \x7b" ++
        "\n      const res = await fetch(" ++ pathLit ++
        " + (searchParams ? '?' + new URLSearchParams(searchParams) : '')," ++
        " \x7b method: '" ++ methodName ++
        "', headers: \x7b'Content-Type':'application/json'\x7d," ++
        " body: JSON.stringify(body) \x7d);" ++
        "\n      const reader = res.body!.getReader();" ++
        "\n      const decoder = new TextDecoder();" ++
        "\n      return \x7b reader, decoder \x7d;" ++
        "\n  \x7d),"
  else if isGet then
    methodName ++ ": " ++ paramsSignature ++ ": UseQueryResult<" ++
      dataType ++ ", unknown> => useQuery<" ++ dataType ++
      ", unknown>(['" ++ methodName ++ "', " ++ pathLit ++
      ", searchParams], () => fetch(" ++ pathLit ++
      " + (searchParams ? '?' + new URLSearchParams(searchParams) : ''))" ++
      ".then(res => res.json())),"
  else if !usesBody then
    methodName ++ ": " ++ paramsSignature ++ ": UseMutationResult<" ++
      dataType ++ ", unknown, void> => useMutation<" ++ dataType ++
      ", unknown, void>(() => fetch(" ++ pathLit ++
      " + (searchParams ? '?' + new URLSearchParams(searchParams) : '')," ++
      " \x7b method: '" ++ methodName ++
      "' \x7d).then(res => res.json())),"
  else
    methodName ++ ": " ++ paramsSignature ++ ": UseMutationResult<" ++
      dataType ++ ", unknown, " ++ inputType ++ "> => useMutation<" ++
      dataType ++ ", unknown, " ++ inputType ++ ">(() => fetch(" ++
      pathLit ++
      " + (searchParams ? '?' + new URLSearchParams(searchParams) : '')," ++
      " \x7b method: '" ++ methodName ++
      "', headers: \x7b'Content-Type':'application/json'\x7d," ++
      " body: JSON.stringify(body) \x7d).then(res => res.json())),"

mutual

/-- `buildObjectCode` (client-code-builder lines 170-189). -/
def buildObjectCode : RouteNode → List String → Nat → String
  | .mk _ methods children _, segments, depth =>
    let pathLit := buildPathLiteral segments
    String.intercalate "\n"
      (["\x7b"] ++ methods.map (fun mi => buildMethodCode mi pathLit) ++
        buildClientChildren children segments depth ++ ["\x7d"])

/-- The children loop of `buildObjectCode`, with
`buildDynamicChildCode` (lines 135-148) and `buildStaticChildCode`
(lines 158-161) inlined. -/
def buildClientChildren :
    List (String × RouteNode) → List String → Nat → List String
  | [], _, _ => []
  | (key, child) :: rest, segments, depth =>
    (if jsStartsWith child.segment "[" && jsEndsWith child.segment "]" then
      let isCatchAll :=
        jsStartsWith child.segment "[..." && jsEndsWith child.segment "]"
      let param := if isCatchAll then jsSliceNeg child.segment 4
        else jsSliceNeg child.segment 1
      let type := if isCatchAll then "string[]" else "string"
      let childCode :=
        buildObjectCode child (segments ++ [child.segment]) (depth + 1)
      let innerLines := ((jsLinesStr childCode).drop 1).dropLast
      [jsToUpper key ++ ": (" ++ param ++ ": " ++ type ++ ") => (\x7b"] ++
        innerLines ++ ["\x7d),"]
    else
      [jsToUpper key ++ ": " ++
        buildObjectCode child (segments ++ [child.segment]) (depth + 1) ++
        ","]) ++
    buildClientChildren rest segments depth

end

/-! #### The server emitter (server-code-builder) -/

/-- `String.prototype.replace` with a `g` literal-string regex, as the
header/cookie rewrites use (`new RegExp(name, 'g')` over an escaped
literal). -/
def replaceAllL (pat repl : List Char) : Nat → List Char → List Char
  | 0, _ => []
  | _, [] => []
  | fuel + 1, c :: rest =>
    if pat.isPrefixOf (c :: rest) then
      repl ++ replaceAllL pat repl fuel ((c :: rest).drop pat.length)
    else c :: replaceAllL pat repl fuel rest

/-- Replace every occurrence of a (nonempty) literal pattern. -/
def jsReplaceAll (s pat repl : String) : String :=
  if pat.data = [] then s
  else String.mk (replaceAllL pat.data repl.data (s.data.length + 1) s.data)

/-- The `g` regex `(?:\(await params\)|params)\.param` of
`buildChildRouteCode` (server-code-builder lines 119-123): at each
position the first alternative is preferred. -/
def replaceAlt2L (p1 p2 repl : List Char) : Nat → List Char → List Char
  | 0, _ => []
  | _, [] => []
  | fuel + 1, c :: rest =>
    if p1.isPrefixOf (c :: rest) then
      repl ++ replaceAlt2L p1 p2 repl fuel ((c :: rest).drop p1.length)
    else if p2.isPrefixOf (c :: rest) then
      repl ++ replaceAlt2L p1 p2 repl fuel ((c :: rest).drop p2.length)
    else c :: replaceAlt2L p1 p2 repl fuel rest

/-- Rewrite `(await params).param` and `params.param` to `param`. -/
def replaceParamAccess (s param : String) : String :=
  String.mk (replaceAlt2L ("(await params).".data ++ param.data)
    ("params.".data ++ param.data) param.data (s.data.length + 1) s.data)

/-- `createFunctionString` (server-code-builder lines 3-7). -/
def createFunctionString (params body : String) : String :=
  "(" ++ params ++ ") => tryCatchFunction(async () => \x7b\n" ++ body ++
    "\n\x7d)"

/-- `buildMethodHandlerCode` (server-code-builder lines 14-108), the full
function: redirect branch, infinite branch, and the replayed-body branch
with the mutation splice, the non-GET `.json(` filter, and the
searchParams/headers/cookies rewrites. -/
def buildMethodHandlerCode (mi : MethodInfo) : String :=
  let methodName := mi.name
  let usesBody := usesBodyOf mi
  let inputType := mi.inputType
  let hc0 := mi.handlerCode.getD ""
  if jsIncludes hc0.data "NextResponse.redirect".data then
    let redirectUrl := findRedirectUrl false hc0
    let optionsType := "\x7b searchParams?: Record<string, string> \x7d"
    let paramsString := "\x7b searchParams \x7d: " ++ optionsType ++
      " = \x7b\x7d"
    let bodyContent := "const url = 'http://localhost' + (searchParams ?" ++
      " '?' + new URLSearchParams(searchParams) : '');\nredirect('" ++
      redirectUrl ++ "');"
    "  " ++ methodName ++ ": " ++
      createFunctionString paramsString bodyContent ++ ","
  else
    let handlerRawLines := jsLinesStr hc0
    if handlerRawLines.any (fun l => jsIncludes l.data "use infinite".data)
    then
      let infiniteParams := if usesBody then
          "\x7b body, searchParams \x7d: \x7b body: " ++ inputType ++
            "; searchParams?: Record<string, string> \x7d," ++
            " pageParam: number = 1"
        else
          "\x7b searchParams \x7d: \x7b searchParams?:" ++
            " Record<string, string> \x7d, pageParam: number = 1"
      let infiniteBody :=
        String.intercalate "\n" (buildInfiniteBody handlerRawLines)
      "  " ++ methodName ++ ": " ++
        createFunctionString infiniteParams infiniteBody ++ ","
    else
      let afterSplice := spliceUseMutation handlerRawLines
      let codeLines := if methodName ≠ "GET" then
          afterSplice.filter (fun l => !(jsIncludes l.data ".json(".data))
        else afterSplice
      let paramName := match mi.paramName with
        | some p => if p = "" then "req" else p
        | none => "req"
      let usesSearchParams := codeLines.any (fun l =>
        jsIncludes l.data "searchParams".data ||
        jsIncludes l.data (paramName ++ ".nextUrl").data)
      let hasHeaderUsage := codeLines.any (fun l =>
        jsIncludes l.data (paramName ++ ".headers").data)
      let hasCookieUsage := codeLines.any (fun l =>
        jsIncludes l.data (paramName ++ ".cookies").data)
      let optionProps :=
        (if usesBody then ["body: " ++ inputType] else []) ++
        (if usesSearchParams then
          ["searchParams?: Record<string, string>"] else [])
      let optionsType := "\x7b " ++
        String.intercalate "; " optionProps ++ " \x7d"
      let propNames0 := optionProps.map firstField
      let propNames := if usesBody then
          match mi.bodyVariableName with
          | some av =>
            if av ≠ "" && av ≠ "body" then
              propNames0.set 0 ("body: " ++ av)
            else propNames0.set 0 "body"
          | none => propNames0.set 0 "body"
        else propNames0
      let destructParams := String.intercalate ", " propNames
      let paramsString := if optionProps.length > 0 then
          "\x7b " ++ destructParams ++ " \x7d: " ++ optionsType
        else ""
      let bodyLines :=
        (if usesSearchParams then
          ["const " ++ paramName ++ ": any = \x7b url: 'http://localhost'" ++
            " + (searchParams ? '?' + new URLSearchParams(searchParams)" ++
            " : ''), nextUrl: \x7b searchParams: new" ++
            " URLSearchParams(searchParams) \x7d \x7d;"]
          else []) ++
        (if hasHeaderUsage then ["const headersVal = await nextHeaders();"]
          else []) ++
        (if hasCookieUsage then ["const cookiesVal = await nextCookies();"]
          else []) ++
        codeLines.map (fun line =>
          let r1 := if hasHeaderUsage then
              jsReplaceAll line (paramName ++ ".headers") "headersVal"
            else line
          if hasCookieUsage then
            jsReplaceAll r1 (paramName ++ ".cookies") "cookiesVal"
          else r1)
      let indentedBody :=
        String.intercalate "\n" (bodyLines.map (fun l => "  " ++ l))
      "  " ++ methodName ++ ": " ++
        createFunctionString paramsString indentedBody ++ ","

mutual

/-- `buildServerObjectCode` (server-code-builder lines 161-173). -/
def buildServerObjectCode : RouteNode → List String → Nat → String
  | .mk _ methods children _, segments, depth =>
    String.intercalate "\n"
      (["\x7b"] ++ methods.map buildMethodHandlerCode ++
        buildServerChildren children segments depth ++ ["\x7d"])

/-- The children loop of `buildServerObjectCode`, with
`buildChildRouteCode` (lines 114-151) inlined: each child contributes one
pre-joined string, exactly as the source pushes the joined child code. -/
def buildServerChildren :
    List (String × RouteNode) → List String → Nat → List String
  | [], _, _ => []
  | (key, child) :: rest, segments, depth =>
    (if jsStartsWith child.segment "[..." && jsEndsWith child.segment "]"
    then
      let param := jsSliceNeg child.segment 4
      let rawChildCode :=
        buildServerObjectCode child (segments ++ [child.segment]) (depth + 1)
      let replaced := replaceParamAccess rawChildCode param
      let innerLines := (((jsLinesStr replaced).drop 1).dropLast).filter
        (fun l => !(jsIncludes l.data
          ("const " ++ param ++ " = " ++ param).data))
      [String.intercalate "\n"
        ([jsToUpper key ++ ": (" ++ param ++ ": string[]) => (\x7b"] ++
          innerLines ++ ["\x7d),"])]
    else if jsStartsWith child.segment "[" && jsEndsWith child.segment "]"
    then
      let param := jsSliceNeg child.segment 1
      let rawChildCode :=
        buildServerObjectCode child (segments ++ [child.segment]) (depth + 1)
      let replaced := replaceParamAccess rawChildCode param
      let innerLines := (((jsLinesStr replaced).drop 1).dropLast).filter
        (fun l => !(jsIncludes l.data
          ("const " ++ param ++ " = " ++ param).data))
      [String.intercalate "\n"
        ([jsToUpper key ++ ": (" ++ param ++ ": string) => (\x7b"] ++
          innerLines ++ ["\x7d),"])]
    else
      ["  " ++ jsToUpper key ++ ": " ++
        buildServerObjectCode child (segments ++ [child.segment])
          (depth + 1) ++ ","]) ++
    buildServerChildren rest segments depth

end

/-! #### The `writeSdks` pipeline -/

/-- The `undefined` an out-of-range entry index would read. -/
def dummyEntry : ImportDeclRef := ⟨"", none, none, [], true⟩

/-- Write the client pass's mutated entries back into the shared entry
array at their indices. -/
def writeBack (entries : List ImportDeclRef) (idxs : List Nat)
    (vals : List ImportDeclRef) : List ImportDeclRef :=
  (idxs.zip vals).foldl (fun es p => es.set p.1 p.2) entries

/-- One generation run's observable outcome: both artifact texts (the
formatter is the identity here) and the store after all in-place
named-import mutations. -/
structure SdkRun where
  clientText : String
  serverText : String
  store : Store

/-- `writeSdks` (api-sdk.ts lines 298-323) with `generateClientSdk`
(lines 229-259) and `generateServerSdk` (lines 267-295): collect,
combine, dealias, then the client pass (body, unused-import filter over
the shared entries, a second dealias pass, import lines, conditional
`tryCatchFunction` import, fixed frame lines) and then the server pass
(body, filter, third dealias pass, import lines plus four pushed
imports).  The client pass completes before the server pass starts. -/
def writeSdksR (st : Store) (t : RouteNodeR) : SdkRun :=
  let raw := collectRouteImports t
  let pc := combineImportsR st raw
  let entries0 := pc.1
  let st1 := pc.2
  let pa := aliasConflictingImportsR st1 entries0
  let entries1 := pa.1
  let st2 := pa.2
  let clientBody := buildObjectCode (derefTree st2 t) [] 1
  let clientIdxs := (List.range entries1.length).filter (fun i =>
    importUsed st2 (entries1.getD i dummyEntry) [clientBody])
  let clientSub := clientIdxs.map (fun i => entries1.getD i dummyEntry)
  let pcl := aliasConflictingImportsR st2 clientSub
  let clientSub2 := pcl.1
  let st3 := pcl.2
  let entries2 := writeBack entries1 clientIdxs clientSub2
  let clientImportLines := clientSub2.map (formatImport st3) ++
    (if jsIncludes clientBody.data "tryCatchFunction".data then
      ["import \x7b tryCatchFunction \x7d from \"../utils/tryCatch.ts\";"]
    else [])
  let clientText := String.intercalate "\n"
    (["'use client';", "", "/* Auto-generated API SDK - do not edit */"] ++
      clientImportLines ++
      ["",
        "import \x7b useQuery, useMutation, useInfiniteQuery \x7d" ++
          " from 'react-query';",
        "import type \x7b UseQueryResult, UseMutationResult," ++
          " UseInfiniteQueryResult \x7d from 'react-query';",
        "",
        "export const API = " ++ clientBody ++ ";",
        ""])
  let serverBody := buildServerObjectCode (derefTree st3 t) [] 1
  let serverIdxs := (List.range entries2.length).filter (fun i =>
    importUsed st3 (entries2.getD i dummyEntry) [serverBody])
  let serverSub := serverIdxs.map (fun i => entries2.getD i dummyEntry)
  let ps := aliasConflictingImportsR st3 serverSub
  let serverSub2 := ps.1
  let st4 := ps.2
  let serverImportLines := serverSub2.map (formatImport st4) ++
    ["import \x7b tryCatchFunction \x7d from \"../utils/tryCatch.ts\";",
      "import \x7b headers as nextHeaders \x7d from \"next/headers\";",
      "import \x7b cookies as nextCookies \x7d from \"next/headers\";",
      "import \x7b redirect \x7d from \"next/navigation\";"]
  let serverText := String.intercalate "\n"
    (["/* Auto-generated API SERVER SDK - do not edit */", ""] ++
      serverImportLines ++
      ["", "export const API = " ++ serverBody ++ ";", ""])
  ⟨clientText, serverText, st4⟩

/-- A store of three shared named-import objects, all importing `x`:
address 0 belongs to the root's `modB` import, addresses 1 and 2 to two
children's `modA` imports. -/
def c6Store : Store := [⟨"x", none⟩, ⟨"x", none⟩, ⟨"x", none⟩]

/-- The matching route tree: a root with a POST method whose input type
mentions `x` and `x_1` (so the imports survive the unused-import filter)
and two static children each importing `x` from `modA`. -/
def c6Tree : RouteNodeR :=
  .mk "app"
    [⟨"POST", "RT", "x | x_1", none, none, none, none⟩]
    [("n1", .mk "n1" [] [] [⟨"modA", none, none, [1], false⟩]),
      ("n2", .mk "n2" [] [] [⟨"modA", none, none, [2], false⟩])]
    [⟨"modB", none, none, [0], false⟩]

/-- Counterexample to claim C6: the first run dealiases the second
shared `x` import to `x as x_1`, mutating the tree's named-import
object; the second run, reading the mutated tree, no longer recognizes
the two `modA` contributions as duplicates and emits
`import \x7b x as x_1, x as x_1 \x7d from 'modA';` — both artifact texts
differ between the two runs. -/
theorem claim_C6_counterexample :
    (writeSdksR (writeSdksR c6Store c6Tree).store c6Tree).clientText ≠
      (writeSdksR c6Store c6Tree).clientText ∧
    (writeSdksR (writeSdksR c6Store c6Tree).store c6Tree).serverText ≠
      (writeSdksR c6Store c6Tree).serverText := by
  constructor
  · set_option maxRecDepth 10000 in decide
  · set_option maxRecDepth 10000 in decide

/-- Claim C6, amended: the generation pipeline is a deterministic
function of the reference tree and the store of shared named-import
objects; whenever a run leaves that store unchanged (no effective
dealias mutation), running it again produces byte-identical client and
server texts.  The counterexample shows the store hypothesis is needed:
a run that does mutate the store changes the next run's output. -/
theorem claim_C6 (st : Store) (t : RouteNodeR)
    (h : (writeSdksR st t).store = st) :
    (writeSdksR (writeSdksR st t).store t).clientText =
      (writeSdksR st t).clientText ∧
    (writeSdksR (writeSdksR st t).store t).serverText =
      (writeSdksR st t).serverText := by
  rw [h]
  exact ⟨rfl, rfl⟩

/-- Witness for C6 at a concrete conflict-free input: one import of `x`
from one module; the run does not touch the store and the second run's
texts equal the first's. -/
theorem claim_C6_witness :
    (writeSdksR [⟨"x", none⟩]
      (.mk "app" [⟨"POST", "RT", "x", none, none, none, none⟩] []
        [⟨"modA", none, none, [0], false⟩])).store = [⟨"x", none⟩] ∧
    (writeSdksR
      (writeSdksR [⟨"x", none⟩]
        (.mk "app" [⟨"POST", "RT", "x", none, none, none, none⟩] []
          [⟨"modA", none, none, [0], false⟩])).store
      (.mk "app" [⟨"POST", "RT", "x", none, none, none, none⟩] []
        [⟨"modA", none, none, [0], false⟩])).clientText =
      (writeSdksR [⟨"x", none⟩]
        (.mk "app" [⟨"POST", "RT", "x", none, none, none, none⟩] []
          [⟨"modA", none, none, [0], false⟩])).clientText := by
  refine ⟨by decide, ?_⟩
  exact (claim_C6 [⟨"x", none⟩]
    (.mk "app" [⟨"POST", "RT", "x", none, none, none, none⟩] []
      [⟨"modA", none, none, [0], false⟩]) (by decide)).1

theorem storeGet_set_self (st : Store) (a : Nat) (v : NamedImportInfo)
    (h : a < storeLen st) : storeGet (storeSet st a v) a = v := by
  induction st generalizing a with
  | nil => simp [storeLen] at h
  | cons x rest ih =>
    cases a with
    | zero => rfl
    | succ a =>
      simp only [storeLen, List.length_cons] at h
      exact ih a (by simp only [storeLen]; omega)

theorem storeGet_set_ne (st : Store) (a : Nat) (v : NamedImportInfo)
    (i : Nat) (h : i ≠ a) : storeGet (storeSet st a v) i = storeGet st i := by
  induction st generalizing a i with
  | nil => rfl
  | cons x rest ih =>
    cases a with
    | zero =>
      cases i with
      | zero => exact absurd rfl h
      | succ i => rfl
    | succ a =>
      cases i with
      | zero => rfl
      | succ i => exact ih a i (by omega)

theorem storeLen_set (st : Store) (a : Nat) (v : NamedImportInfo) :
    storeLen (storeSet st a v) = storeLen st := by
  simp [storeLen, storeSet]

theorem storeGet_append_lt (st xs : Store) (a : Nat)
    (h : a < storeLen st) : storeGet (st ++ xs) a = storeGet st a := by
  induction st generalizing a with
  | nil => simp [storeLen] at h
  | cons x rest ih =>
    cases a with
    | zero => rfl
    | succ a =>
      simp only [storeLen, List.length_cons] at h
      exact ih a (by simp only [storeLen]; omega)

/-- The relation every pipeline stage keeps between its input and output
stores: the store only grows, and the `name` field of every existing
object is untouched (only `aliasName` is ever assigned). -/
def StoreExt (st st' : Store) : Prop :=
  storeLen st ≤ storeLen st' ∧
  ∀ a, a < storeLen st → (storeGet st' a).name = (storeGet st a).name

theorem StoreExt_refl (st : Store) : StoreExt st st :=
  ⟨Nat.le_refl _, fun _ _ => rfl⟩

theorem StoreExt_trans {s1 s2 s3 : Store} (h12 : StoreExt s1 s2)
    (h23 : StoreExt s2 s3) : StoreExt s1 s3 :=
  ⟨Nat.le_trans h12.1 h23.1,
    fun a h => (h23.2 a (Nat.lt_of_lt_of_le h h12.1)).trans (h12.2 a h)⟩

theorem StoreExt_set_alias (st : Store) (a : Nat) (v : NamedImportInfo)
    (hname : v.name = (storeGet st a).name) :
    StoreExt st (storeSet st a v) := by
  refine ⟨by rw [storeLen_set], fun i hi => ?_⟩
  by_cases h : i = a
  · subst h
    rw [storeGet_set_self st i v hi, hname]
  · rw [storeGet_set_ne st a v i h]

theorem StoreExt_append (st xs : Store) : StoreExt st (st ++ xs) :=
  ⟨by simp [storeLen], fun a h => by rw [storeGet_append_lt st xs a h]⟩

theorem aliasNamedLoop_ext (nc : List (String × Nat)) (addrs : List Nat) :
    ∀ used st, StoreExt st (aliasNamedLoop nc used st addrs).2 := by
  induction addrs with
  | nil => intro used st; exact StoreExt_refl st
  | cons a rest ih =>
    intro used st
    simp only [aliasNamedLoop]
    split_ifs with h1 h2
    · refine StoreExt_trans (StoreExt_set_alias st a _ ?_) (ih _ _)
      rfl
    · exact ih _ _
    · exact ih _ _

theorem aliasEntryLoop_ext (nc : List (String × Nat))
    (imps : List ImportDeclRef) :
    ∀ used st, StoreExt st (aliasEntryLoop nc used st imps).2 := by
  induction imps with
  | nil => intro used st; exact StoreExt_refl st
  | cons imp rest ih =>
    intro used st
    simp only [aliasEntryLoop]
    exact StoreExt_trans (aliasNamedLoop_ext nc imp.namedAddrs _ st) (ih _ _)

theorem mergeDefaultR_ext (st : Store) (existing imp : ImportDeclRef) :
    StoreExt st (mergeDefaultR st existing imp).2 := by
  unfold mergeDefaultR
  split_ifs <;> first
    | exact StoreExt_refl st
    | exact StoreExt_append st _

theorem mergeIntoR_ext (st : Store) (existing imp : ImportDeclRef) :
    StoreExt st (mergeIntoR st existing imp).2 := by
  simp only [mergeIntoR]
  exact mergeDefaultR_ext st existing imp

theorem combineStepR_ext (st : Store)
    (m : List (String × ImportDeclRef)) (imp : ImportDeclRef) :
    StoreExt st (combineStepR st m imp).2 := by
  unfold combineStepR
  cases m.lookup imp.moduleSpecifier with
  | none => exact StoreExt_refl st
  | some existing => exact mergeIntoR_ext st existing imp

theorem combineFold_ext (imports : List ImportDeclRef) :
    ∀ (m : List (String × ImportDeclRef)) (st : Store),
      StoreExt st ((imports.foldl
        (fun acc imp => combineStepR acc.2 acc.1 imp) (m, st))).2 := by
  induction imports with
  | nil => intro m st; exact StoreExt_refl st
  | cons imp rest ih =>
    intro m st
    rw [List.foldl_cons]
    generalize hc : combineStepR st m imp = p
    have e1 : StoreExt st p.2 := by
      rw [← hc]
      exact combineStepR_ext st m imp
    obtain ⟨m2, st2⟩ := p
    exact StoreExt_trans e1 (ih m2 st2)

theorem combineImportsR_ext (st : Store) (imports : List ImportDeclRef) :
    StoreExt st (combineImportsR st imports).2 := by
  simp only [combineImportsR]
  exact combineFold_ext imports [] st

theorem aliasConflictingImportsR_ext (st : Store)
    (imports : List ImportDeclRef) :
    StoreExt st (aliasConflictingImportsR st imports).2 :=
  aliasEntryLoop_ext _ imports [] st

/-- The whole generation run only extends the store and never changes
the `name` of an existing named-import object. -/
theorem writeSdksR_store_ext (st : Store) (t : RouteNodeR) :
    StoreExt st (writeSdksR st t).store := by
  simp only [writeSdksR]
  exact StoreExt_trans (combineImportsR_ext st _)
    (StoreExt_trans (aliasConflictingImportsR_ext _ _)
      (StoreExt_trans (aliasConflictingImportsR_ext _ _)
        (aliasConflictingImportsR_ext _ _)))

/-- Erase the alias of a named import, keeping its name. -/
def eraseNi (ni : NamedImportInfo) : NamedImportInfo := ⟨ni.name, none⟩

/-- Erase the aliases of an import declaration's named imports. -/
def eraseImp (imp : ImportDeclarationInfo) : ImportDeclarationInfo :=
  { imp with namedImports := imp.namedImports.map eraseNi }

mutual

/-- A route tree with every named-import alias erased: equal erasures
mean the trees agree on everything except possibly those aliases. -/
def eraseTree : RouteNode → RouteNode
  | .mk s ms cs imps => .mk s ms (eraseChildren cs) (imps.map eraseImp)

def eraseChildren : List (String × RouteNode) → List (String × RouteNode)
  | [] => []
  | (k, c) :: rest => (k, eraseTree c) :: eraseChildren rest

end

/-- All named-import addresses of an import declaration lie inside the
store. -/
def impAddrsOk (n : Nat) (imp : ImportDeclRef) : Bool :=
  imp.namedAddrs.all (fun a => a < n)

mutual

/-- All named-import addresses of a tree lie inside the store (the
well-formedness the generator establishes by construction). -/
def treeAddrsOk (n : Nat) : RouteNodeR → Bool
  | .mk _ _ cs imps => imps.all (impAddrsOk n) && childrenAddrsOk n cs

def childrenAddrsOk (n : Nat) : List (String × RouteNodeR) → Bool
  | [] => true
  | (_, c) :: rest => treeAddrsOk n c && childrenAddrsOk n rest

end

theorem eraseImp_deref (st st' : Store) (hext : StoreExt st st')
    (imp : ImportDeclRef) (h : impAddrsOk (storeLen st) imp = true) :
    eraseImp (derefImport st' imp) = eraseImp (derefImport st imp) := by
  simp only [impAddrsOk, List.all_eq_true, decide_eq_true_eq] at h
  simp only [eraseImp, derefImport, List.map_map]
  congr 1
  apply List.map_congr_left
  intro a ha
  show eraseNi (storeGet st' a) = eraseNi (storeGet st a)
  simp only [eraseNi]
  rw [hext.2 a (h a ha)]

/-- Name-preserving store growth leaves the alias-erased dereferenced
tree unchanged (strong induction over the tree). -/
theorem erase_deref_aux (st st' : Store) (hext : StoreExt st st') :
    ∀ n : Nat,
      (∀ t : RouteNodeR, sizeOf t ≤ n →
        treeAddrsOk (storeLen st) t = true →
        eraseTree (derefTree st' t) = eraseTree (derefTree st t)) ∧
      (∀ cs : List (String × RouteNodeR), sizeOf cs ≤ n →
        childrenAddrsOk (storeLen st) cs = true →
        eraseChildren (derefChildren st' cs) =
          eraseChildren (derefChildren st cs)) := by
  intro n
  induction n using Nat.strong_induction_on with
  | _ n ih =>
    constructor
    · intro t ht hok
      obtain ⟨s, ms, cs, imps⟩ := t
      simp only [RouteNodeR.mk.sizeOf_spec] at ht
      simp only [treeAddrsOk, Bool.and_eq_true] at hok
      have hcs : sizeOf cs < n := by omega
      simp only [derefTree, eraseTree, List.map_map]
      rw [(ih (sizeOf cs) hcs).2 cs (Nat.le_refl _) hok.2]
      congr 1
      apply List.map_congr_left
      intro imp himp
      show eraseImp (derefImport st' imp) = eraseImp (derefImport st imp)
      exact eraseImp_deref st st' hext imp
        (by
          simp only [List.all_eq_true] at hok
          exact hok.1 imp himp)
    · intro cs hcs hok
      cases cs with
      | nil => rfl
      | cons p rest =>
        obtain ⟨k, c⟩ := p
        simp only [List.cons.sizeOf_spec, Prod.mk.sizeOf_spec] at hcs
        simp only [childrenAddrsOk, Bool.and_eq_true] at hok
        simp only [derefChildren, eraseChildren]
        rw [(ih (sizeOf c) (by omega)).1 c (Nat.le_refl _) hok.1,
          (ih (sizeOf rest) (by omega)).2 rest (Nat.le_refl _) hok.2]

/-- Claim C7, amended: a generation run can change the route tree, but
only in the `alias` fields of named-import entries — with every
named-import address inside the store, the alias-erased dereferenced
tree (segments, methods, children and all other import fields) is
unchanged by `writeSdks`. -/
theorem claim_C7 (st : Store) (t : RouteNodeR)
    (h : treeAddrsOk (storeLen st) t = true) :
    eraseTree (derefTree (writeSdksR st t).store t) =
      eraseTree (derefTree st t) :=
  (erase_deref_aux st (writeSdksR st t).store
    (writeSdksR_store_ext st t) (sizeOf t)).1 t (Nat.le_refl _) h

/-- Counterexample to C7's "the tree is left unchanged": generating from
the shared-import tree mutates a named-import alias, so the dereferenced
tree's import list differs after the run. -/
theorem claim_C7_counterexample :
    collectImportsView (derefTree (writeSdksR c6Store c6Tree).store c6Tree)
      ≠ collectImportsView (derefTree c6Store c6Tree) := by
  decide

/-- Witness for C7 at the concrete shared-import input: its addresses
are in range and the alias-erased trees agree before and after the
run. -/
theorem claim_C7_witness :
    treeAddrsOk (storeLen c6Store) c6Tree = true ∧
    eraseTree (derefTree (writeSdksR c6Store c6Tree).store c6Tree) =
      eraseTree (derefTree c6Store c6Tree) :=
  ⟨by decide, claim_C7 c6Store c6Tree (by decide)⟩

end AppRouterSdk
